import Mathlib

/-!
Shallow embedding of the IMDb analytics dashboard (src/dashboard.py) and
verification of its specification claims.

A pandas DataFrame is modelled as a `Table`: a list of column names plus
row-major data.  A cell is a string, a rational number, or missing (NaN).
Pandas/NumPy details that the claims depend on are modelled explicitly:
`between` on missing values is false, `fillna` of a missing fill value is a
no-op, `astype(int)` truncates toward zero and fails on missing values,
`int(...)` truncates toward zero, left merges keep left order and match on
cell equality, and column selection uses the first column with a given name.
-/

namespace ImdbDash

/-- One cell of a data frame: a string, a (rational) number, or missing. -/
inductive Cell where
  | str : String → Cell
  | num : Rat → Cell
  | na  : Cell
deriving DecidableEq, Repr

/-- A data frame: named columns and row-major data. -/
structure Table where
  cols : List String
  rows : List (List Cell)
deriving DecidableEq, Repr

instance {α β : Type} [DecidableEq α] [DecidableEq β] :
    DecidableEq (Except α β) := fun a b =>
  match a, b with
  | Except.ok x, Except.ok y =>
      if h : x = y then isTrue (by rw [h])
      else isFalse (by intro hc; cases hc; exact h rfl)
  | Except.error x, Except.error y =>
      if h : x = y then isTrue (by rw [h])
      else isFalse (by intro hc; cases hc; exact h rfl)
  | Except.ok _, Except.error _ => isFalse (by intro hc; cases hc)
  | Except.error _, Except.ok _ => isFalse (by intro hc; cases hc)

/-- Well-formedness: each row has one cell per column. -/
def Table.Wf (t : Table) : Prop := ∀ r ∈ t.rows, r.length = t.cols.length

instance (t : Table) : Decidable t.Wf := by
  unfold Table.Wf; infer_instance

/-- Index of the first column with the given name (pandas column lookup). -/
def colIndex : List String → String → Option Nat
  | [], _ => none
  | c :: cs, d => if c = d then some 0 else (colIndex cs d).map (· + 1)

/-- Value of column `c` in row `r` (missing when the column is absent). -/
def getColCell (cols : List String) (c : String) (r : List Cell) : Cell :=
  match colIndex cols c with
  | some i => r.getD i Cell.na
  | none => Cell.na

/-- The whole column `c` of a table, as a list of cells. -/
def colValsD (t : Table) (c : String) : List Cell :=
  t.rows.map (getColCell t.cols c)

/-- Python `int(...)` on a rational: truncation toward zero. -/
def pyInt (q : Rat) : Int :=
  if 0 ≤ q.num then ((q.num.toNat / q.den : Nat) : Int)
  else -(((-q.num).toNat / q.den : Nat) : Int)

/-- ASCII lower-casing of one character, as Python `str.lower` does on ASCII. -/
def lowerChar (c : Char) : Char :=
  if h : 65 ≤ c.toNat ∧ c.toNat ≤ 90 then
    Char.ofNatAux (c.toNat + 32) (Or.inl (by omega)) else c

/-- Whitespace stripped by Python `str.strip`. -/
def isSpaceChar (c : Char) : Bool :=
  c = ' ' || c = '\t' || c = '\n' || c = '\r' || c = '\x0b' || c = '\x0c'

/-- Python `str.strip`: drop whitespace from both ends. -/
def stripList (l : List Char) : List Char :=
  ((l.dropWhile isSpaceChar).reverse.dropWhile isSpaceChar).reverse

/-- Python `str.replace(a, "_")` for a single character `a`. -/
def replUnd (a : Char) (l : List Char) : List Char :=
  l.map fun c => if c = a then '_' else c

/-- The name transform of `normalize_columns`:
`c.lower().strip().replace(" ", "_").replace("\n", "_").replace("\t", "_")`. -/
def normChain (l : List Char) : List Char :=
  replUnd '\t' (replUnd '\n' (replUnd ' ' (stripList (l.map lowerChar))))

/-- Per-column-name normalization, preserving a literal `metadata`. -/
def normName (s : String) : String :=
  if s = "metadata" then s else String.mk (normChain s.data)

/-- `normalize_columns` from src/dashboard.py lines 35-49. -/
def normalize_columns (t : Table) : Table :=
  { t with cols := t.cols.map normName }

/-- `df.rename(columns={old: new})`: every column named `old` becomes `new`. -/
def renameAll (old new : String) (l : List String) : List String :=
  l.map fun c => if c = old then new else c

/-- The `meta_data` → `metadata` rename loop, src/dashboard.py lines 56-58. -/
def metaFix (t : Table) : Table :=
  if "meta_data" ∈ t.cols ∧ "metadata" ∉ t.cols then
    { t with cols := renameAll "meta_data" "metadata" t.cols }
  else t

/-- The `duration_` → `duration` rename loop, src/dashboard.py lines 61-63. -/
def durFix (t : Table) : Table :=
  if "duration_" ∈ t.cols ∧ "duration" ∉ t.cols then
    { t with cols := renameAll "duration_" "duration" t.cols }
  else t

/-- Full schema normalization of one table (normalize_columns + both renames). -/
def normalizeTable (t : Table) : Table :=
  durFix (metaFix (normalize_columns t))

/-! ## Numeric coercer / imputer -/

/-- Digits of a numeral, most significant first, as a natural number. -/
def natOfDigits (l : List Char) : Nat :=
  l.foldl (fun a c => a * 10 + (c.toNat - 48)) 0

/-- Numeric parsing as done by `pd.to_numeric` on plain decimal literals:
optional surrounding whitespace, optional sign, digits with an optional
fractional part.  (Exponent forms are outside the modelled fragment.) -/
def parsePyNum (s : String) : Option Rat :=
  let l := stripList s.data
  let sl : Int × List Char :=
    match l with
    | '-' :: r => (-1, r)
    | '+' :: r => (1, r)
    | _ => (1, l)
  let ip := (sl.2.takeWhile (·.isDigit))
  let rest := (sl.2.dropWhile (·.isDigit))
  match rest with
  | [] => if ip = [] then none else some (mkRat (sl.1 * natOfDigits ip) 1)
  | '.' :: fp =>
      if fp.all (·.isDigit) ∧ (ip ≠ [] ∨ fp ≠ []) then
        some (mkRat (sl.1 * (natOfDigits ip * 10 ^ fp.length + natOfDigits fp))
          (10 ^ fp.length))
      else none
  | _ => none

/-- `pd.to_numeric(col, errors="coerce")` on one cell. -/
def toNumericCell : Cell → Cell
  | Cell.str s => match parsePyNum s with
      | some q => Cell.num q
      | none => Cell.na
  | Cell.num q => Cell.num q
  | Cell.na => Cell.na

/-- The column named `c`, when present. -/
def getCol? (t : Table) (c : String) : Option (List Cell) :=
  (colIndex t.cols c).map fun i => t.rows.map (fun r => r.getD i Cell.na)

/-- `df[c] = vals`: replace the first column named `c`, or append a new
column when no column has that name. -/
def setCol (t : Table) (c : String) (vals : List Cell) : Table :=
  match colIndex t.cols c with
  | some i => { t with rows := t.rows.zipWith (fun r v => r.set i v) vals }
  | none => { cols := t.cols ++ [c],
              rows := t.rows.zipWith (fun r v => r ++ [v]) vals }

/-- `df[c] = f(df[c])` when column `c` is present, a no-op otherwise. -/
def overCol (t : Table) (c : String) (f : List Cell → List Cell) : Table :=
  match getCol? t c with
  | some col => setCol t c (f col)
  | none => t

/-- `coerce_numeric` from src/dashboard.py lines 68-72, for the fixed column
list `["metadata", "duration", "year"]` it is called with. -/
def coerce_numeric (t : Table) : Table :=
  ["metadata", "duration", "year"].foldl
    (fun u c => overCol u c (List.map toNumericCell)) t

/-- Insert into an ascending-sorted list of rationals. -/
def insertSorted (x : Rat) : List Rat → List Rat
  | [] => [x]
  | y :: ys => if x ≤ y then x :: y :: ys else y :: insertSorted x ys

/-- Ascending insertion sort. -/
def sortRats (l : List Rat) : List Rat := l.foldr insertSorted []

/-- Mean of two rationals, written with `mkRat` so that it evaluates. -/
def avg2 (a b : Rat) : Rat :=
  mkRat (a.num * (b.den : Int) + b.num * (a.den : Int)) (2 * a.den * b.den)

/-- `Series.median` (skipping missing values is done by the caller):
middle element for odd length, average of the two middles for even length,
undefined on the empty list. -/
def median (l : List Rat) : Option Rat :=
  if (sortRats l).length = 0 then none
  else if (sortRats l).length % 2 = 1 then
    some ((sortRats l).getD ((sortRats l).length / 2) 0)
  else
    some (avg2 ((sortRats l).getD ((sortRats l).length / 2 - 1) 0)
      ((sortRats l).getD ((sortRats l).length / 2) 0))

/-- The numeric value of a cell, when it has one. -/
def numOf : Cell → Option Rat
  | Cell.num q => some q
  | _ => none

/-- Median of the non-missing values of a column. -/
def medianOfCol (col : List Cell) : Option Rat :=
  median (col.filterMap numOf)

/-- `col.fillna(v)` where `v` may itself be missing (then a no-op). -/
def fillNa (col : List Cell) (v : Option Rat) : List Cell :=
  col.map fun c =>
    if c = Cell.na then
      match v with
      | some q => Cell.num q
      | none => Cell.na
    else c

/-- `col.astype(int)`: truncate every numeric value toward zero; a missing
or non-numeric cell raises. -/
def castIntCol (col : List Cell) : Except String (List Cell) :=
  if col.all (fun c => (numOf c).isSome) then
    Except.ok (col.map fun c =>
      match c with
      | Cell.num q => Cell.num ((pyInt q : Int) : Rat)
      | c => c)
  else Except.error "IntCastingNaNError"

/-- The `fillna(median).astype(int)` treatment of one integer column. -/
def imputeIntStep (u : Table) (c : String) : Except String Table :=
  match getCol? u c with
  | some col =>
      match castIntCol (fillNa col (medianOfCol col)) with
      | Except.ok col' => Except.ok (setCol u c col')
      | Except.error e => Except.error e
  | none => Except.ok u

/-- The `metadata` fill: `df["metadata"].fillna(median)`, kept floating. -/
def metaImpute (t : Table) : Table :=
  overCol t "metadata" fun col => fillNa col (medianOfCol col)

/-- `impute_and_cast` from src/dashboard.py lines 74-82: fill missing
`metadata` with its median (kept floating point), fill missing `duration`
and `year` with their medians and cast to integer. -/
def impute_and_cast (t : Table) : Except String Table :=
  match imputeIntStep (metaImpute t) "duration" with
  | Except.ok t2 => imputeIntStep t2 "year"
  | Except.error e => Except.error e

/-- The per-table numeric pipeline applied at src/dashboard.py lines 84-86. -/
def coerceImpute (t : Table) : Except String Table :=
  impute_and_cast (coerce_numeric t)

/-! ## Filter engine -/

/-- The sidebar filter state: inclusive year and metadata ranges (slider
values are integers) and the selected genre and cast-member lists. -/
structure FilterCfg where
  yearLo : Int
  yearHi : Int
  metaLo : Int
  metaHi : Int
  genres : List String
  castSel : List String
deriving DecidableEq, Repr

/-- `Series.between(lo, hi)` on one cell: inclusive comparison on numeric
values, false on missing values. -/
def cellBetween (lo hi : Int) : Cell → Bool
  | Cell.num q => decide ((lo : Rat) ≤ q ∧ q ≤ (hi : Rat))
  | _ => false

/-- `Series.isin(list-of-strings)` on one cell. -/
def cellInStrings (ss : List String) : Cell → Bool
  | Cell.str s => decide (s ∈ ss)
  | _ => false

/-- Cell membership in a list of cells (`Series.isin`; missing matches
missing, as pandas' hash-based isin does). -/
def cellInCells (cs : List Cell) (c : Cell) : Bool := decide (c ∈ cs)

/-- Titles of the exploded-table rows whose `valueCol` entry is in `vals`
(`df_exploded[df_exploded[valueCol].isin(vals)][title].unique().tolist()`). -/
def titlesWith (t : Table) (valueCol : String) (vals : List String)
    (titleCol : String) : List Cell :=
  (t.rows.filter fun r => cellInStrings vals (getColCell t.cols valueCol r)).map
    (getColCell t.cols titleCol)

/-- Step 1 of the filter pipeline (src/dashboard.py lines 122-123):
keep rows whose `year` is within the selected range, when present. -/
def yearRows (cfg : FilterCfg) (dfClean : Table) : List (List Cell) :=
  if "year" ∈ dfClean.cols then
    dfClean.rows.filter fun r =>
      cellBetween cfg.yearLo cfg.yearHi (getColCell dfClean.cols "year" r)
  else dfClean.rows

/-- Step 2 (lines 124-125): restrict further by the `metadata` range. -/
def metaRows (cfg : FilterCfg) (dfClean : Table) : List (List Cell) :=
  if "metadata" ∈ dfClean.cols then
    (yearRows cfg dfClean).filter fun r =>
      cellBetween cfg.metaLo cfg.metaHi (getColCell dfClean.cols "metadata" r)
  else yearRows cfg dfClean

/-- Step 3 (lines 127-130): restrict to titles carrying a selected genre.
The guard tests the movie table's title key and the genre column; indexing
`df_genre[title_col]` then raises a `KeyError` when the genre table has no
title column. -/
def genreRows (cfg : FilterCfg) (dfClean dfGenre : Table) :
    Except String (List (List Cell)) :=
  if cfg.genres ≠ [] ∧ "title" ∈ dfClean.cols ∧ "genre" ∈ dfGenre.cols then
    if "title" ∈ dfGenre.cols then
      Except.ok ((metaRows cfg dfClean).filter fun r =>
        cellInCells (titlesWith dfGenre "genre" cfg.genres "title")
          (getColCell dfClean.cols "title" r))
    else Except.error "KeyError: title"
  else Except.ok (metaRows cfg dfClean)

/-- Step 4 (lines 132-135): the analogous cast-member restriction,
producing the final `df_filtered` table. -/
def castStep (cfg : FilterCfg) (dfClean dfCast : Table)
    (r3 : List (List Cell)) : Except String Table :=
  if cfg.castSel ≠ [] ∧ "title" ∈ dfClean.cols ∧ "cast" ∈ dfCast.cols then
    if "title" ∈ dfCast.cols then
      Except.ok ⟨dfClean.cols, r3.filter fun r =>
        cellInCells (titlesWith dfCast "cast" cfg.castSel "title")
          (getColCell dfClean.cols "title" r)⟩
    else Except.error "KeyError: title"
  else Except.ok ⟨dfClean.cols, r3⟩

/-- The filter pipeline of src/dashboard.py lines 118-135 producing
`df_filtered`. -/
def filterMovies (cfg : FilterCfg) (dfClean dfGenre dfCast : Table) :
    Except String Table :=
  match genreRows cfg dfClean dfGenre with
  | Except.error e => Except.error e
  | Except.ok r3 => castStep cfg dfClean dfCast r3

/-- Conjunction of the four applicable filter predicates on one movie row,
written from the spec's description of the Filter Engine. -/
def specKeep (cfg : FilterCfg) (dfClean dfGenre dfCast : Table)
    (r : List Cell) : Bool :=
  (if "year" ∈ dfClean.cols then
      cellBetween cfg.yearLo cfg.yearHi (getColCell dfClean.cols "year" r)
    else true) &&
  (if "metadata" ∈ dfClean.cols then
      cellBetween cfg.metaLo cfg.metaHi (getColCell dfClean.cols "metadata" r)
    else true) &&
  (if cfg.genres ≠ [] ∧ "title" ∈ dfClean.cols ∧ "genre" ∈ dfGenre.cols then
      cellInCells (titlesWith dfGenre "genre" cfg.genres "title")
        (getColCell dfClean.cols "title" r)
    else true) &&
  (if cfg.castSel ≠ [] ∧ "title" ∈ dfClean.cols ∧ "cast" ∈ dfCast.cols then
      cellInCells (titlesWith dfCast "cast" cfg.castSel "title")
        (getColCell dfClean.cols "title" r)
    else true)

/-! ## Default filter ranges -/

/-- Numeric values of a column, in row order (missing values skipped as
`Series.min` / `np.nanmin` do). -/
def colNums (t : Table) (c : String) : List Rat :=
  t.rows.filterMap fun r => numOf (getColCell t.cols c r)

/-- Minimum of a list of rationals. -/
def listMin : List Rat → Option Rat
  | [] => none
  | h :: t => some (t.foldl min h)

/-- Maximum of a list of rationals. -/
def listMax : List Rat → Option Rat
  | [] => none
  | h :: t => some (t.foldl max h)

/-- Default year range, src/dashboard.py lines 101-107:
`(int(min), int(max))` of the `year` column, or `(1900, 2025)` without one.
Undefined when the column exists but has no numeric value (`int(nan)`). -/
def yearDefault (t : Table) : Option (Int × Int) :=
  if "year" ∈ t.cols then
    match listMin (colNums t "year"), listMax (colNums t "year") with
    | some a, some b => some (pyInt a, pyInt b)
    | _, _ => none
  else some (1900, 2025)

/-- Default metadata range, src/dashboard.py lines 109-115:
`(int(nanmin), int(nanmax))` of `metadata`, or `(0, 100)` without one. -/
def metaDefault (t : Table) : Option (Int × Int) :=
  if "metadata" ∈ t.cols then
    match listMin (colNums t "metadata"), listMax (colNums t "metadata") with
    | some a, some b => some (pyInt a, pyInt b)
    | _, _ => none
  else some (0, 100)

/-- The filter configuration offered by default: full default ranges and
empty genre and cast selections. -/
def defaultCfg (t : Table) : Option FilterCfg :=
  match yearDefault t, metaDefault t with
  | some (ylo, yhi), some (mlo, mhi) =>
      some ⟨ylo, yhi, mlo, mhi, [], []⟩
  | _, _ => none

/-! ## Join resolver -/

/-- `exploded.merge(df_clean[[tc, "year"]], on=tc, how="left")`: keep left
rows in order, one output row per matching movie row (missing year when the
title has no match); when the exploded table already has a `year` column the
two candidates get the pandas suffixes `year_x` (left) and `year_y` (right). -/
def mergeLeftYear (e m : Table) (tc : String) : Table :=
  { cols := (if "year" ∈ e.cols then renameAll "year" "year_x" e.cols
      else e.cols) ++ [if "year" ∈ e.cols then "year_y" else "year"],
    rows := e.rows.flatMap fun r =>
      if (m.rows.filter fun mr =>
          decide (getColCell m.cols tc mr = getColCell e.cols tc r)).isEmpty then
        [r ++ [Cell.na]]
      else (m.rows.filter fun mr =>
          decide (getColCell m.cols tc mr = getColCell e.cols tc r)).map
        fun mr => r ++ [getColCell m.cols "year" mr] }

/-- `df.drop(columns=names)`, dropping every column whose name is listed. -/
def dropCols (t : Table) (names : List String) : Table :=
  { cols := t.cols.filter fun c => decide (c ∉ names),
    rows := t.rows.map fun r =>
      ((t.cols.zip r).filter fun p => decide (p.1 ∉ names)).map Prod.snd }

/-- The duplicate-`year` resolution block repeated at src/dashboard.py
lines 267-275, 322-329 and 376-383: coalesce `year_y` (movie-table value)
with `year_x` (exploded-table value), drop both; otherwise rename the
single surviving candidate. -/
def fixYear (t : Table) : Table :=
  if "year_x" ∈ t.cols ∧ "year_y" ∈ t.cols then
    dropCols (setCol t "year"
      (((colValsD t "year_y").zip (colValsD t "year_x")).map fun p =>
        if p.1 = Cell.na then p.2 else p.1)) ["year_x", "year_y"]
  else if "year_x" ∈ t.cols then
    { t with cols := renameAll "year_x" "year" t.cols }
  else if "year_y" ∈ t.cols then
    { t with cols := renameAll "year_y" "year" t.cols }
  else t

/-- `df.dropna(subset=["year"])`. -/
def dropnaYear (t : Table) : Table :=
  { t with rows := t.rows.filter fun r =>
      decide (getColCell t.cols "year" r ≠ Cell.na) }

/-- The whole title-to-year join as performed at each call site:
merge, resolve the year collision, drop rows with missing year. -/
def yearJoin (e m : Table) (tc : String) : Table :=
  dropnaYear (fixYear (mergeLeftYear e m tc))

/-- Coalescing written from the spec's words: prefer the movie-table-sourced
value, fall back to the exploded-table-sourced value when it is missing. -/
def specCoalesce (movieVal fallback : Cell) : Cell :=
  if movieVal = Cell.na then fallback else movieVal

/-- The join result described by the spec: each exploded row paired with
each matching movie row, a single `year` column holding the coalesced value,
rows with missing resulting `year` dropped. -/
def specYearJoin (e m : Table) (tc : String) : Table :=
  { cols := (e.cols.filter fun c => decide (c ≠ "year")) ++ ["year"],
    rows := (e.rows.flatMap fun r =>
      if (m.rows.filter fun mr =>
          decide (getColCell m.cols tc mr = getColCell e.cols tc r)).isEmpty then
        [(((e.cols.zip r).filter fun p => decide (p.1 ≠ "year")).map Prod.snd) ++
          [specCoalesce Cell.na (getColCell e.cols "year" r)]]
      else (m.rows.filter fun mr =>
          decide (getColCell m.cols tc mr = getColCell e.cols tc r)).map
        fun mr =>
          (((e.cols.zip r).filter fun p => decide (p.1 ≠ "year")).map Prod.snd) ++
            [specCoalesce (getColCell m.cols "year" mr)
              (getColCell e.cols "year" r)]).filter
      fun r => decide (getColCell
        ((e.cols.filter fun c => decide (c ≠ "year")) ++ ["year"]) "year" r ≠
          Cell.na) }

/-! ## Tab computations feeding the charts -/

/-- Number of occurrences of a cell value in a list. -/
def countCell (l : List Cell) (c : Cell) : Nat :=
  (l.filter fun x => decide (x = c)).length

/-- Distinct values in first-encountered order. -/
def dedupCells (seen : List Cell) : List Cell → List Cell
  | [] => []
  | x :: xs =>
      if x ∈ seen then dedupCells seen xs
      else x :: dedupCells (x :: seen) xs

/-- Insertion into a count-descending list. -/
def insertByCount (p : Cell × Nat) : List (Cell × Nat) → List (Cell × Nat)
  | [] => [p]
  | q :: qs => if q.2 < p.2 then p :: q :: qs else q :: insertByCount p qs

/-- `Series.value_counts()`: frequency per distinct non-missing value,
descending by count. -/
def valueCounts (l : List Cell) : List (Cell × Nat) :=
  let vs := l.filter fun c => decide (c ≠ Cell.na)
  ((dedupCells [] vs).map fun c => (c, countCell vs c)).foldr insertByCount []

/-- `exploded[exploded[tc].isin(titles)]`. -/
def restrictToTitles (e : Table) (titles : List Cell) (tc : String) : Table :=
  { e with rows := e.rows.filter fun r =>
      cellInCells titles (getColCell e.cols tc r) }

/-- The `df_year_genre` that feeds the genre-analysis-tab pivot,
src/dashboard.py lines 227-278: the merge of the filtered `dfg_top` at line
256 is immediately overwritten at line 261 by a merge of the full
`df_genre`; the collision fix and `dropna` then run on that full join. -/
def genreTrendTable (dfFiltered dfGenre dfClean : Table) : Table :=
  let dfg := restrictToTitles dfGenre (colValsD dfFiltered "title") "title"
  let topGenres := ((valueCounts (colValsD dfg "genre")).take 12).map Prod.fst
  let dfgTop := { dfg with rows := dfg.rows.filter (fun r =>
    cellInCells topGenres (getColCell dfg.cols "genre" r)) }
  let _firstAssignment :=
    if "title" ∈ dfClean.cols then mergeLeftYear dfgTop dfClean "title"
    else dfgTop
  let dfYearGenre := mergeLeftYear dfGenre dfClean "title"
  dropnaYear (fixYear dfYearGenre)

/-- The table the spec's reading of the claim would feed the pivot: the
join computed from the sidebar-filtered genre rows. -/
def claimGenreTrendTable (dfFiltered dfGenre dfClean : Table) : Table :=
  let dfg := restrictToTitles dfGenre (colValsD dfFiltered "title") "title"
  dropnaYear (fixYear (mergeLeftYear dfg dfClean "title"))

/-- One cell of `pivot_table(index="year", columns="genre", values=tc,
aggfunc="count").fillna(0)`: the count of rows with that year and genre and
a non-missing `tc` entry (0 when the pair never occurs). -/
def pivotLookup (t : Table) (tc : String) (y g : Cell) : Nat :=
  (t.rows.filter fun r =>
    decide (getColCell t.cols "year" r = y ∧ getColCell t.cols "genre" r = g ∧
      getColCell t.cols tc r ≠ Cell.na)).length

/-- The actor-trend table of the cast-analysis tab, lines 294-332. -/
def castTrendTable (dfFiltered dfCast dfClean : Table) : Table :=
  let dfc := restrictToTitles dfCast (colValsD dfFiltered "title") "title"
  let topActors := ((valueCounts (colValsD dfc "cast")).take 15).map Prod.fst
  let dfcTop := { dfc with rows := dfc.rows.filter (fun r =>
    cellInCells topActors (getColCell dfc.cols "cast" r)) }
  let j := fixYear (mergeLeftYear dfcTop dfClean "title")
  if "year" ∈ j.cols then dropnaYear j else j

/-- The genre heatmap table of the yearly-trends tab, lines 372-388. -/
def yearlyGenreTrendTable (dfGenre dfClean : Table) : Table :=
  let j := fixYear (mergeLeftYear dfGenre dfClean "title")
  if "year" ∈ j.cols then dropnaYear j else j

/-! ## CSV export -/

/-- Minimal CSV quoting as `to_csv` performs it. -/
def csvEscape (s : String) : String :=
  if s.data.any (fun c => c = ',' || c = '"' || c = '\n' || c = '\r') then
    "\"" ++ String.mk (s.data.flatMap fun c =>
      if c = '"' then ['"', '"'] else [c]) ++ "\""
  else s

/-- Rendering of one cell in the exported CSV. -/
def cellRender : Cell → String
  | Cell.str s => csvEscape s
  | Cell.num q =>
      if q.den = 1 then toString q.num
      else toString q.num ++ "/" ++ toString q.den
  | Cell.na => ""

/-- One CSV line. -/
def csvLine (cells : List String) : String := String.intercalate "," cells

/-- `df.to_csv(index=False)` as a list of lines: the header line followed by
one line per row, in table order. -/
def toCsv (t : Table) : List String :=
  csvLine (t.cols.map csvEscape) :: t.rows.map fun r => csvLine (r.map cellRender)

/-- The exported bytes (UTF-8 text). -/
def csvBytesOf (t : Table) : String :=
  String.intercalate "\n" (toCsv t) ++ "\n"

/-- The data frames alive after the filter section of the script. -/
structure AppState where
  df_clean : Table
  df_cast : Table
  df_genre : Table
  df_filtered : Table
deriving DecidableEq, Repr

/-- Everything the tab sections (src/dashboard.py lines 144-447) compute
between the sidebar export and the data-table export.  Every value computed
there is bound to a fresh name; no statement in that span assigns to
`df_filtered` (or to the three base frames), which this embedding records by
threading the state through unchanged. -/
structure TabOutputs where
  state : AppState
  overviewGenreCounts : List (Cell × Nat)
  overviewCastCounts : List (Cell × Nat)
  genreTabTrend : Table
  castTabTrend : Table
  yearlyCounts : List (Cell × Nat)
  yearlyGenreTrend : Table
deriving Repr

/-- The tab sections as a pure function of the post-filter state. -/
def tabsCompute (s : AppState) : TabOutputs :=
  let gRestricted :=
    restrictToTitles s.df_genre (colValsD s.df_filtered "title") "title"
  let cRestricted :=
    restrictToTitles s.df_cast (colValsD s.df_filtered "title") "title"
  { state := s,
    overviewGenreCounts := (valueCounts (colValsD gRestricted "genre")).take 15,
    overviewCastCounts := (valueCounts (colValsD cRestricted "cast")).take 15,
    genreTabTrend := genreTrendTable s.df_filtered s.df_genre s.df_clean,
    castTabTrend := castTrendTable s.df_filtered s.df_cast s.df_clean,
    yearlyCounts := (dedupCells [] (colValsD s.df_filtered "year")).map fun y =>
      (y, countCell (colValsD s.df_filtered "year") y),
    yearlyGenreTrend := yearlyGenreTrendTable s.df_genre s.df_clean }

/-- The sidebar download content, src/dashboard.py lines 141-142. -/
def sidebarExport (s : AppState) : String := csvBytesOf s.df_filtered

/-- The data-table-view download content, src/dashboard.py lines 450-455,
computed after all tab sections have run. -/
def dataTableExport (s : AppState) : String :=
  csvBytesOf (tabsCompute s).state.df_filtered

/-! ## Lemmas about the schema normalizer -/

theorem toNat_ofNatAux (n : Nat) (h : n.isValidChar) :
    (Char.ofNatAux n h).toNat = n := rfl

theorem lowerChar_idem (c : Char) : lowerChar (lowerChar c) = lowerChar c := by
  by_cases h : 65 ≤ c.toNat ∧ c.toNat ≤ 90
  · have h1 : lowerChar c = Char.ofNatAux (c.toNat + 32) (Or.inl (by omega)) := by
      unfold lowerChar; exact dif_pos h
    rw [h1]
    unfold lowerChar
    apply dif_neg
    rw [toNat_ofNatAux]
    omega
  · have h1 : lowerChar c = c := by unfold lowerChar; exact dif_neg h
    rw [h1, h1]

theorem dropWhile_idem {α : Type} (p : α → Bool) (l : List α) :
    (l.dropWhile p).dropWhile p = l.dropWhile p := by
  induction l with
  | nil => rfl
  | cons x xs ih =>
      cases hx : p x with
      | true => simp [List.dropWhile_cons, hx, ih]
      | false => simp [List.dropWhile_cons, hx]

theorem dropWhile_head_false {α : Type} {p : α → Bool} {l : List α} {x : α}
    {xs : List α} (h : l.dropWhile p = x :: xs) : p x = false := by
  induction l with
  | nil => simp at h
  | cons y ys ih =>
      rw [List.dropWhile_cons] at h
      by_cases hy : p y = true
      · rw [if_pos hy] at h; exact ih h
      · rw [if_neg hy] at h
        cases h
        simpa using hy

theorem dropWhile_eq_self_of_head {α : Type} {p : α → Bool} {l : List α}
    (h : ∀ x xs, l = x :: xs → p x = false) : l.dropWhile p = l := by
  cases l with
  | nil => rfl
  | cons x xs => simp [List.dropWhile_cons, h x xs rfl]

theorem dropWhile_isSuffix {α : Type} (p : α → Bool) (l : List α) :
    l.dropWhile p <:+ l := by
  induction l with
  | nil => exact List.suffix_refl _
  | cons x xs ih =>
      rw [List.dropWhile_cons]
      by_cases h : p x = true
      · rw [if_pos h]; exact ih.trans (List.suffix_cons x xs)
      · rw [if_neg h]

theorem stripList_left_fixed (l : List Char) :
    (stripList l).dropWhile isSpaceChar = stripList l := by
  apply dropWhile_eq_self_of_head
  intro x xs hx
  obtain ⟨w, hw⟩ :=
    dropWhile_isSuffix isSpaceChar (l.dropWhile isSpaceChar).reverse
  have hu : l.dropWhile isSpaceChar = stripList l ++ w.reverse := by
    calc l.dropWhile isSpaceChar
        = ((l.dropWhile isSpaceChar).reverse).reverse :=
          (List.reverse_reverse _).symm
      _ = (w ++ ((l.dropWhile isSpaceChar).reverse.dropWhile isSpaceChar)).reverse := by
          rw [hw]
      _ = stripList l ++ w.reverse := by
          rw [List.reverse_append]; rfl
  rw [hx] at hu
  exact dropWhile_head_false (by simpa using hu)

theorem stripList_rev_fixed (l : List Char) :
    (stripList l).reverse.dropWhile isSpaceChar = (stripList l).reverse := by
  unfold stripList
  rw [List.reverse_reverse]
  exact dropWhile_idem _ _

/-- No whitespace at either end of a character list. -/
def NoEdgeSpace (l : List Char) : Prop :=
  l.dropWhile isSpaceChar = l ∧ l.reverse.dropWhile isSpaceChar = l.reverse

theorem noEdgeSpace_strip (l : List Char) : NoEdgeSpace (stripList l) :=
  ⟨stripList_left_fixed l, stripList_rev_fixed l⟩

theorem dropWhile_map_fixed {f : Char → Char}
    (hf : ∀ c, isSpaceChar c = false → isSpaceChar (f c) = false)
    {l : List Char} (h : l.dropWhile isSpaceChar = l) :
    (l.map f).dropWhile isSpaceChar = l.map f := by
  apply dropWhile_eq_self_of_head
  intro x xs hx
  cases l with
  | nil => simp at hx
  | cons y ys =>
      have hy : isSpaceChar y = false := dropWhile_head_false h
      rw [List.map_cons] at hx
      cases hx
      exact hf y hy

theorem noEdgeSpace_map {f : Char → Char}
    (hf : ∀ c, isSpaceChar c = false → isSpaceChar (f c) = false)
    {l : List Char} (h : NoEdgeSpace l) : NoEdgeSpace (l.map f) := by
  refine ⟨dropWhile_map_fixed hf h.1, ?_⟩
  rw [← List.map_reverse]
  exact dropWhile_map_fixed hf h.2

theorem stripList_eq_self {l : List Char} (h : NoEdgeSpace l) :
    stripList l = l := by
  unfold stripList
  rw [h.1, h.2, List.reverse_reverse]

theorem noEdgeSpace_replUnd (a : Char) {l : List Char} (h : NoEdgeSpace l) :
    NoEdgeSpace (replUnd a l) := by
  apply noEdgeSpace_map (fun c hc => ?_) h
  by_cases hca : c = a
  · rw [if_pos hca]; decide
  · rw [if_neg hca]; exact hc

theorem mem_replUnd {a c : Char} {l : List Char} (h : c ∈ replUnd a l) :
    c = '_' ∨ (c ∈ l ∧ c ≠ a) := by
  unfold replUnd at h
  rcases List.mem_map.mp h with ⟨x, hx, he⟩
  by_cases hxa : x = a
  · rw [if_pos hxa] at he; exact Or.inl he.symm
  · rw [if_neg hxa] at he; exact Or.inr ⟨he ▸ hx, he ▸ hxa⟩

theorem mem_stripList {c : Char} {l : List Char} (h : c ∈ stripList l) :
    c ∈ l := by
  unfold stripList at h
  rw [List.mem_reverse] at h
  have h2 := (List.dropWhile_sublist isSpaceChar).subset h
  rw [List.mem_reverse] at h2
  exact (List.dropWhile_sublist isSpaceChar).subset h2

theorem replUnd_ne {a c : Char} {l : List Char} (ha : a ≠ '_')
    (h : c ∈ replUnd a l) : c ≠ a := by
  rcases mem_replUnd h with h1 | ⟨_, h1⟩
  · rw [h1]; exact fun he => ha he.symm
  · exact h1

theorem replUnd_preserves_ne {a b c : Char} {l : List Char} (hb : b ≠ '_')
    (hl : ∀ x ∈ l, x ≠ b) (h : c ∈ replUnd a l) : c ≠ b := by
  rcases mem_replUnd h with h1 | ⟨h1, _⟩
  · rw [h1]; exact fun he => hb he.symm
  · exact hl c h1

theorem lowerChar_fixed_of_mem_normChain {c : Char} {l : List Char}
    (h : c ∈ normChain l) : lowerChar c = c := by
  unfold normChain at h
  rcases mem_replUnd h with h1 | ⟨h1, _⟩
  · rw [h1]; decide
  rcases mem_replUnd h1 with h2 | ⟨h2, _⟩
  · rw [h2]; decide
  rcases mem_replUnd h2 with h3 | ⟨h3, _⟩
  · rw [h3]; decide
  rcases List.mem_map.mp (mem_stripList h3) with ⟨x, _, he⟩
  rw [← he]
  exact lowerChar_idem x

theorem normChain_no_space {c : Char} {l : List Char} (h : c ∈ normChain l) :
    c ≠ ' ' ∧ c ≠ '\n' ∧ c ≠ '\t' := by
  unfold normChain at h
  refine ⟨?_, ?_, replUnd_ne (by decide) h⟩
  · apply replUnd_preserves_ne (by decide) (fun x hx => ?_) h
    apply replUnd_preserves_ne (by decide) (fun y hy => ?_) hx
    exact replUnd_ne (by decide) hy
  · apply replUnd_preserves_ne (by decide) (fun x hx => ?_) h
    exact replUnd_ne (by decide) hx

theorem map_eq_self_of_fixed {α : Type} {f : α → α} {l : List α}
    (h : ∀ x ∈ l, f x = x) : l.map f = l := by
  rw [List.map_congr_left h]
  simp

theorem noEdgeSpace_normChain (l : List Char) : NoEdgeSpace (normChain l) := by
  unfold normChain
  exact noEdgeSpace_replUnd _ (noEdgeSpace_replUnd _ (noEdgeSpace_replUnd _
    (noEdgeSpace_strip _)))

theorem normChain_idem (l : List Char) :
    normChain (normChain l) = normChain l := by
  have hfix : (normChain l).map lowerChar = normChain l :=
    map_eq_self_of_fixed fun x hx => lowerChar_fixed_of_mem_normChain hx
  have hstrip : stripList (normChain l) = normChain l :=
    stripList_eq_self (noEdgeSpace_normChain l)
  have hs : replUnd ' ' (normChain l) = normChain l :=
    map_eq_self_of_fixed fun x hx => if_neg (normChain_no_space hx).1
  have hn : replUnd '\n' (normChain l) = normChain l :=
    map_eq_self_of_fixed fun x hx => if_neg (normChain_no_space hx).2.1
  have ht : replUnd '\t' (normChain l) = normChain l :=
    map_eq_self_of_fixed fun x hx => if_neg (normChain_no_space hx).2.2
  show replUnd '\t' (replUnd '\n' (replUnd ' '
    (stripList ((normChain l).map lowerChar)))) = normChain l
  rw [hfix, hstrip, hs, hn, ht]

theorem normName_idem (s : String) : normName (normName s) = normName s := by
  by_cases h : s = "metadata"
  · have h1 : normName s = s := by rw [normName, if_pos h]
    simp [h1]
  · have h1 : normName s = String.mk (normChain s.data) := by
      rw [normName, if_neg h]
    rw [h1]
    by_cases h2 : String.mk (normChain s.data) = "metadata"
    · rw [normName, if_pos h2]
    · rw [normName, if_neg h2]
      show String.mk (normChain (normChain s.data)) = _
      rw [normChain_idem]

theorem renameAll_mem_of_ne {old nw x : String} {l : List String} (hx : x ∈ l)
    (hne : x ≠ old) : x ∈ renameAll old nw l := by
  unfold renameAll
  exact List.mem_map.mpr ⟨x, hx, if_neg hne⟩

theorem renameAll_mem_new {old nw : String} {l : List String} (h : old ∈ l) :
    nw ∈ renameAll old nw l := by
  unfold renameAll
  exact List.mem_map.mpr ⟨old, h, if_pos rfl⟩

theorem mem_renameAll {old nw x : String} {l : List String}
    (h : x ∈ renameAll old nw l) : x = nw ∨ (x ∈ l ∧ x ≠ old) := by
  unfold renameAll at h
  rcases List.mem_map.mp h with ⟨y, hy, he⟩
  by_cases hyo : y = old
  · rw [if_pos hyo] at he; exact Or.inl he.symm
  · rw [if_neg hyo] at he; exact Or.inr ⟨he ▸ hy, he ▸ hyo⟩

theorem renameAll_not_mem_old {old nw : String} {l : List String}
    (hne : old ≠ nw) : old ∉ renameAll old nw l := by
  intro h
  rcases mem_renameAll h with h1 | ⟨_, h1⟩
  · exact hne h1
  · exact h1 rfl

/-- The `meta_data` rename on column names alone. -/
def metaCols (c1 : List String) : List String :=
  if "meta_data" ∈ c1 ∧ "metadata" ∉ c1 then
    renameAll "meta_data" "metadata" c1
  else c1

/-- The `duration_` rename on column names alone. -/
def durCols (c2 : List String) : List String :=
  if "duration_" ∈ c2 ∧ "duration" ∉ c2 then
    renameAll "duration_" "duration" c2
  else c2

/-- The column-name part of `normalizeTable`. -/
def normalizeCols (cs : List String) : List String :=
  durCols (metaCols (cs.map normName))

theorem normalize_columns_eq (t : Table) :
    normalize_columns t = ⟨t.cols.map normName, t.rows⟩ := by
  cases t; rfl

theorem metaFix_eq (t : Table) : metaFix t = ⟨metaCols t.cols, t.rows⟩ := by
  cases t
  unfold metaFix metaCols
  split_ifs <;> rfl

theorem durFix_eq (t : Table) : durFix t = ⟨durCols t.cols, t.rows⟩ := by
  cases t
  unfold durFix durCols
  split_ifs <;> rfl

theorem normalizeTable_eq (t : Table) :
    normalizeTable t = ⟨normalizeCols t.cols, t.rows⟩ := by
  rw [normalizeTable, normalize_columns_eq, metaFix_eq, durFix_eq]
  rfl

theorem mem_metaCols_of_mem {a : String} {x : List String} (ha : a ∈ x)
    (hne : a ≠ "meta_data") : a ∈ metaCols x := by
  unfold metaCols
  split
  · exact renameAll_mem_of_ne ha hne
  · exact ha

theorem mem_of_mem_metaCols {a : String} {x : List String} (h : a ∈ metaCols x)
    (hne : a ≠ "metadata") : a ∈ x := by
  unfold metaCols at h
  split at h
  · rcases mem_renameAll h with h1 | ⟨h1, _⟩
    · exact absurd h1 hne
    · exact h1
  · exact h

theorem mem_durCols_of_mem {a : String} {x : List String} (ha : a ∈ x)
    (hne : a ≠ "duration_") : a ∈ durCols x := by
  unfold durCols
  split
  · exact renameAll_mem_of_ne ha hne
  · exact ha

theorem mem_of_mem_durCols {a : String} {x : List String} (h : a ∈ durCols x)
    (hne : a ≠ "duration") : a ∈ x := by
  unfold durCols at h
  split at h
  · rcases mem_renameAll h with h1 | ⟨h1, _⟩
    · exact absurd h1 hne
    · exact h1
  · exact h

theorem normalizeCols_fixedNames {cs : List String} :
    ∀ x ∈ normalizeCols cs, normName x = x := by
  intro x hx
  unfold normalizeCols at hx
  have base : ∀ y, y ∈ cs.map normName → normName y = y := by
    intro y hy
    rcases List.mem_map.mp hy with ⟨s, _, he⟩
    rw [← he]
    exact normName_idem s
  have step2 : ∀ y, y ∈ metaCols (cs.map normName) → normName y = y := by
    intro y hy
    unfold metaCols at hy
    split at hy
    · rcases mem_renameAll hy with h1 | ⟨h1, _⟩
      · rw [h1]; decide
      · exact base y h1
    · exact base y hy
  unfold durCols at hx
  split at hx
  · rcases mem_renameAll hx with h1 | ⟨h1, _⟩
    · rw [h1]; decide
    · exact step2 x h1
  · exact step2 x hx

theorem normalizeCols_idem (cs : List String) :
    normalizeCols (normalizeCols cs) = normalizeCols cs := by
  have hmap : (normalizeCols cs).map normName = normalizeCols cs :=
    map_eq_self_of_fixed normalizeCols_fixedNames
  have hmeta : ¬ ("meta_data" ∈ normalizeCols cs ∧
      "metadata" ∉ normalizeCols cs) := by
    rintro ⟨hmd, hm⟩
    apply hm
    unfold normalizeCols at hmd ⊢
    have hmd2 : "meta_data" ∈ metaCols (cs.map normName) :=
      mem_of_mem_durCols hmd (by decide)
    have hm1 : "metadata" ∈ metaCols (cs.map normName) := by
      unfold metaCols at hmd2 ⊢
      split at hmd2
      · exact absurd hmd2 (renameAll_not_mem_old (by decide))
      · rename_i hc
        rw [if_neg hc]
        push_neg at hc
        exact hc hmd2
    exact mem_durCols_of_mem hm1 (by decide)
  have hdur : ¬ ("duration_" ∈ normalizeCols cs ∧
      "duration" ∉ normalizeCols cs) := by
    rintro ⟨hdu, hd⟩
    apply hd
    unfold normalizeCols at hdu ⊢
    unfold durCols at hdu ⊢
    split at hdu
    · exact absurd hdu (renameAll_not_mem_old (by decide))
    · rename_i hc
      rw [if_neg hc]
      push_neg at hc
      exact hc hdu
  conv_lhs => rw [normalizeCols]
  rw [hmap]
  unfold metaCols
  rw [if_neg hmeta]
  unfold durCols
  rw [if_neg hdur]

/-- C5: the full schema normalization (lowercase/trim/underscore renaming
together with the `meta_data`-to-`metadata` and `duration_`-to-`duration`
rules) is idempotent: `normalize(normalize(T)) == normalize(T)` for every
table `T`. -/
theorem claim_c5_normalize_idempotent (t : Table) :
    normalizeTable (normalizeTable t) = normalizeTable t := by
  rw [normalizeTable_eq t, normalizeTable_eq]
  simp [normalizeCols_idem]

/-- C6: normalization establishes the canonical score-column name: a column
literally named `metadata` before normalization is still named `metadata`
after, and a column named `meta_data` after the lowercase/trim/underscore
step is renamed to `metadata` exactly when no column named `metadata`
exists at that point (and is left alone when one does). -/
theorem claim_c6_metadata_canonical (t : Table) :
    ("metadata" ∈ t.cols → "metadata" ∈ (normalizeTable t).cols) ∧
    ("meta_data" ∈ (normalize_columns t).cols →
      "metadata" ∉ (normalize_columns t).cols →
      "metadata" ∈ (normalizeTable t).cols ∧
        "meta_data" ∉ (normalizeTable t).cols) ∧
    ("meta_data" ∈ (normalize_columns t).cols →
      "metadata" ∈ (normalize_columns t).cols →
      "meta_data" ∈ (normalizeTable t).cols) := by
  rw [normalizeTable_eq, normalize_columns_eq]
  show ("metadata" ∈ t.cols → "metadata" ∈ normalizeCols t.cols) ∧ _
  unfold normalizeCols
  refine ⟨?_, ?_, ?_⟩
  · intro h
    have h1 : "metadata" ∈ t.cols.map normName :=
      List.mem_map.mpr ⟨"metadata", h, by decide⟩
    exact mem_durCols_of_mem (mem_metaCols_of_mem h1 (by decide)) (by decide)
  · intro hmd hm
    constructor
    · apply mem_durCols_of_mem _ (by decide)
      unfold metaCols
      rw [if_pos ⟨hmd, hm⟩]
      exact renameAll_mem_new hmd
    · intro hcon
      have h2 : "meta_data" ∈ metaCols (t.cols.map normName) :=
        mem_of_mem_durCols hcon (by decide)
      unfold metaCols at h2
      rw [if_pos ⟨hmd, hm⟩] at h2
      exact renameAll_not_mem_old (by decide) h2
  · intro hmd hm
    apply mem_durCols_of_mem _ (by decide)
    unfold metaCols
    rw [if_neg (by intro hc; exact hc.2 hm)]
    exact hmd

/-- Witness for C6 at the concrete table with single column `meta_data`. -/
theorem claim_c6_witness :
    "metadata" ∈ (normalizeTable ⟨["meta_data"], []⟩).cols ∧
      "meta_data" ∉ (normalizeTable ⟨["meta_data"], []⟩).cols :=
  (claim_c6_metadata_canonical ⟨["meta_data"], []⟩).2.1 (by decide) (by decide)

/-! ## Lemmas about column access and update -/

theorem isSome_opt_map {α β : Type} (f : α → β) (o : Option α) :
    (o.map f).isSome = o.isSome := by cases o <;> rfl

theorem colIndex_isSome_iff {cols : List String} {c : String} :
    (colIndex cols c).isSome ↔ c ∈ cols := by
  induction cols with
  | nil => simp [colIndex]
  | cons x xs ih =>
      rw [colIndex]
      by_cases h : x = c
      · simp [h]
      · rw [if_neg h, isSome_opt_map, List.mem_cons]
        constructor
        · intro hs
          exact Or.inr (ih.mp hs)
        · rintro (h1 | h1)
          · exact absurd h1.symm h
          · exact ih.mpr h1

theorem colIndex_get {cols : List String} {c : String} {i : Nat}
    (h : colIndex cols c = some i) : cols[i]? = some c := by
  induction cols generalizing i with
  | nil => simp [colIndex] at h
  | cons x xs ih =>
      rw [colIndex] at h
      by_cases hx : x = c
      · rw [if_pos hx] at h
        cases h
        simp [hx]
      · rw [if_neg hx] at h
        rcases Option.map_eq_some'.mp h with ⟨j, hj, he⟩
        subst he
        simpa using ih hj

theorem colIndex_lt {cols : List String} {c : String} {i : Nat}
    (h : colIndex cols c = some i) : i < cols.length := by
  have h1 := colIndex_get h
  by_contra hlt
  rw [List.getElem?_eq_none (by omega)] at h1
  cases h1

theorem colIndex_inj {cols : List String} {c c' : String} {i j : Nat}
    (hc : colIndex cols c = some i) (hc' : colIndex cols c' = some j)
    (hne : c' ≠ c) : j ≠ i := by
  intro he
  subst he
  have h1 := colIndex_get hc
  have h2 := colIndex_get hc'
  rw [h1] at h2
  cases h2
  exact hne rfl

theorem getCol?_isSome_iff {t : Table} {c : String} :
    (getCol? t c).isSome ↔ c ∈ t.cols := by
  unfold getCol?
  rw [isSome_opt_map]
  exact colIndex_isSome_iff

theorem getCol?_length {t : Table} {c : String} {col : List Cell}
    (h : getCol? t c = some col) : col.length = t.rows.length := by
  unfold getCol? at h
  rcases Option.map_eq_some'.mp h with ⟨i, _, he⟩
  rw [← he, List.length_map]

theorem mem_zipWith {α β γ : Type} {f : α → β → γ} {as : List α} {bs : List β}
    {c : γ} (h : c ∈ List.zipWith f as bs) :
    ∃ a, a ∈ as ∧ ∃ b, b ∈ bs ∧ c = f a b := by
  induction as generalizing bs with
  | nil => simp at h
  | cons a as ih =>
      cases bs with
      | nil => simp at h
      | cons b bs =>
          rw [List.zipWith_cons_cons, List.mem_cons] at h
          rcases h with h | h
          · exact ⟨a, List.mem_cons_self .., b, List.mem_cons_self .., h⟩
          · rcases ih h with ⟨a', ha', b', hb', he⟩
            exact ⟨a', List.mem_cons_of_mem _ ha', b',
              List.mem_cons_of_mem _ hb', he⟩

theorem map_getD_zipWith_set {rows : List (List Cell)} {v : List Cell}
    {i : Nat} (hlen : v.length = rows.length)
    (hwf : ∀ r ∈ rows, i < r.length) :
    (List.zipWith (fun r x => r.set i x) rows v).map
      (fun r => r.getD i Cell.na) = v := by
  induction rows generalizing v with
  | nil =>
      cases v with
      | nil => rfl
      | cons x xs => simp at hlen
  | cons r rs ih =>
      cases v with
      | nil => simp at hlen
      | cons x xs =>
          rw [List.zipWith_cons_cons, List.map_cons]
          congr 1
          · rw [List.getD_eq_getElem?_getD,
              List.getElem?_set_self (hwf r (List.mem_cons_self ..))]
            rfl
          · exact ih (by simpa using hlen)
              (fun r' hr' => hwf r' (List.mem_cons_of_mem _ hr'))

theorem map_getD_zipWith_set_ne {rows : List (List Cell)} {v : List Cell}
    {i j : Nat} (hlen : v.length = rows.length) (hij : j ≠ i) :
    (List.zipWith (fun r x => r.set i x) rows v).map
      (fun r => r.getD j Cell.na) = rows.map (fun r => r.getD j Cell.na) := by
  induction rows generalizing v with
  | nil => rfl
  | cons r rs ih =>
      cases v with
      | nil => simp at hlen
      | cons x xs =>
          rw [List.zipWith_cons_cons, List.map_cons, List.map_cons]
          congr 1
          · rw [List.getD_eq_getElem?_getD, List.getD_eq_getElem?_getD,
              List.getElem?_set_ne (fun he => hij he.symm)]
          · exact ih (by simpa using hlen)

theorem setCol_cols {t : Table} {c : String} {v : List Cell} {i : Nat}
    (hi : colIndex t.cols c = some i) : (setCol t c v).cols = t.cols := by
  unfold setCol
  rw [hi]

theorem setCol_rows_length {t : Table} {c : String} {v : List Cell} {i : Nat}
    (hi : colIndex t.cols c = some i) (hlen : v.length = t.rows.length) :
    (setCol t c v).rows.length = t.rows.length := by
  unfold setCol
  rw [hi]
  simp [List.length_zipWith, hlen]

theorem setCol_wf {t : Table} {c : String} {v : List Cell} {i : Nat}
    (hwf : t.Wf) (hi : colIndex t.cols c = some i) : (setCol t c v).Wf := by
  intro r hr
  rw [setCol_cols hi]
  unfold setCol at hr
  rw [hi] at hr
  simp only at hr
  rcases mem_zipWith hr with ⟨r', hr', x, _, he⟩
  rw [he, List.length_set]
  exact hwf r' hr'

theorem getCol?_setCol_same {t : Table} {c : String} {v : List Cell} {i : Nat}
    (hwf : t.Wf) (hi : colIndex t.cols c = some i)
    (hlen : v.length = t.rows.length) :
    getCol? (setCol t c v) c = some v := by
  unfold getCol?
  rw [setCol_cols hi, hi]
  unfold setCol
  rw [hi]
  simp only [Option.map_some']
  congr 1
  exact map_getD_zipWith_set hlen
    (fun r hr => by rw [hwf r hr]; exact colIndex_lt hi)

theorem getCol?_setCol_other {t : Table} {c c' : String} {v : List Cell}
    {i : Nat} (hi : colIndex t.cols c = some i)
    (hlen : v.length = t.rows.length) (hne : c' ≠ c) :
    getCol? (setCol t c v) c' = getCol? t c' := by
  unfold getCol?
  rw [setCol_cols hi]
  cases hj : colIndex t.cols c' with
  | none => rfl
  | some j =>
      unfold setCol
      rw [hi]
      simp only [Option.map_some']
      congr 1
      exact map_getD_zipWith_set_ne hlen (colIndex_inj hi hj hne)

theorem overCol_cols (t : Table) (c : String) (f : List Cell → List Cell) :
    (overCol t c f).cols = t.cols := by
  unfold overCol
  cases hg : getCol? t c with
  | none => rfl
  | some col =>
      unfold getCol? at hg
      rcases Option.map_eq_some'.mp hg with ⟨i, hi, _⟩
      exact setCol_cols hi

theorem overCol_wf {t : Table} {c : String} {f : List Cell → List Cell}
    (hwf : t.Wf) : (overCol t c f).Wf := by
  unfold overCol
  cases hg : getCol? t c with
  | none => exact hwf
  | some col =>
      unfold getCol? at hg
      rcases Option.map_eq_some'.mp hg with ⟨i, hi, _⟩
      exact setCol_wf hwf hi

theorem overCol_rows_length {t : Table} {c : String} {f : List Cell → List Cell}
    (hf : ∀ col, (f col).length = col.length) :
    (overCol t c f).rows.length = t.rows.length := by
  unfold overCol
  cases hg : getCol? t c with
  | none => rfl
  | some col =>
      unfold getCol? at hg
      rcases Option.map_eq_some'.mp hg with ⟨i, hi, _⟩
      exact setCol_rows_length hi (by rw [hf col, getCol?_length hg])

theorem getCol?_overCol_same {t : Table} {c : String}
    {f : List Cell → List Cell} (hwf : t.Wf)
    (hf : ∀ col, (f col).length = col.length) :
    getCol? (overCol t c f) c = (getCol? t c).map f := by
  unfold overCol
  cases hg : getCol? t c with
  | none => rw [hg]; rfl
  | some col =>
      unfold getCol? at hg
      rcases Option.map_eq_some'.mp hg with ⟨i, hi, he⟩
      rw [Option.map_some']
      exact getCol?_setCol_same hwf hi
        (by rw [hf col, ← he, List.length_map])

theorem getCol?_overCol_other {t : Table} {c c' : String}
    {f : List Cell → List Cell} (hf : ∀ col, (f col).length = col.length)
    (hne : c' ≠ c) : getCol? (overCol t c f) c' = getCol? t c' := by
  unfold overCol
  cases hg : getCol? t c with
  | none => rfl
  | some col =>
      unfold getCol? at hg
      rcases Option.map_eq_some'.mp hg with ⟨i, hi, he⟩
      exact getCol?_setCol_other hi
        (by rw [hf col, ← he, List.length_map]) hne

/-! ## Lemmas about the numeric pipeline -/

theorem insertSorted_length (x : Rat) (l : List Rat) :
    (insertSorted x l).length = l.length + 1 := by
  induction l with
  | nil => rfl
  | cons y ys ih =>
      rw [insertSorted]
      by_cases h : x ≤ y
      · rw [if_pos h]
        rfl
      · rw [if_neg h]
        simp [ih]

theorem sortRats_length (l : List Rat) : (sortRats l).length = l.length := by
  induction l with
  | nil => rfl
  | cons x xs ih =>
      show (insertSorted x (sortRats xs)).length = xs.length + 1
      rw [insertSorted_length, ih]

theorem median_isSome {l : List Rat} (h : l ≠ []) : ∃ q, median l = some q := by
  unfold median
  have h0 : (sortRats l).length ≠ 0 := by
    rw [sortRats_length]
    simpa using h
  rw [if_neg h0]
  by_cases hp : (sortRats l).length % 2 = 1
  · rw [if_pos hp]
    exact ⟨_, rfl⟩
  · rw [if_neg hp]
    exact ⟨_, rfl⟩

theorem medianOfCol_isSome {col : List Cell}
    (hex : ∃ x ∈ col, (numOf x).isSome) : ∃ q, medianOfCol col = some q := by
  unfold medianOfCol
  apply median_isSome
  rcases hex with ⟨x, hx, hs⟩
  rcases Option.isSome_iff_exists.mp hs with ⟨q, hq⟩
  intro he
  have hmem : q ∈ col.filterMap numOf := List.mem_filterMap.mpr ⟨x, hx, hq⟩
  rw [he] at hmem
  cases hmem

theorem fillNa_length (col : List Cell) (v : Option Rat) :
    (fillNa col v).length = col.length := by
  unfold fillNa
  rw [List.length_map]

theorem fillNa_some_no_na {col : List Cell} {q : Rat} :
    Cell.na ∉ fillNa col (some q) := by
  intro h
  unfold fillNa at h
  rcases List.mem_map.mp h with ⟨x, _, he⟩
  by_cases hx : x = Cell.na
  · rw [if_pos hx] at he
    cases he
  · rw [if_neg hx] at he
    exact hx he

theorem fillNa_some_all_num {col : List Cell} {q : Rat}
    (hnum : ∀ x ∈ col, x = Cell.na ∨ (numOf x).isSome) :
    ∀ y ∈ fillNa col (some q), (numOf y).isSome := by
  intro y hy
  unfold fillNa at hy
  rcases List.mem_map.mp hy with ⟨x, hx, he⟩
  by_cases hxa : x = Cell.na
  · rw [if_pos hxa] at he
    rw [← he]
    rfl
  · rw [if_neg hxa] at he
    rcases hnum x hx with h1 | h1
    · exact absurd h1 hxa
    · rw [← he]
      exact h1

theorem castIntCol_ok {col : List Cell} (h : ∀ x ∈ col, (numOf x).isSome) :
    ∃ col', castIntCol col = Except.ok col' ∧ col'.length = col.length ∧
      ∀ y ∈ col', ∃ n : Int, y = Cell.num (n : Rat) := by
  unfold castIntCol
  rw [if_pos (List.all_eq_true.mpr h)]
  refine ⟨_, rfl, List.length_map .., ?_⟩
  intro y hy
  rcases List.mem_map.mp hy with ⟨x, hx, he⟩
  have hs := h x hx
  cases x with
  | num q => exact ⟨pyInt q, by rw [← he]⟩
  | str s => simp [numOf] at hs
  | na => simp [numOf] at hs

theorem no_na_of_all_int {col' : List Cell}
    (h : ∀ y ∈ col', ∃ n : Int, y = Cell.num (n : Rat)) :
    Cell.na ∉ col' := by
  intro hna
  rcases h _ hna with ⟨n, hn⟩
  cases hn

theorem toNumericCell_shape (x : Cell) :
    toNumericCell x = Cell.na ∨ (numOf (toNumericCell x)).isSome := by
  cases x with
  | str s =>
      cases h : parsePyNum s with
      | none =>
          left
          simp [toNumericCell, h]
      | some q =>
          right
          simp [toNumericCell, h, numOf]
  | num q => exact Or.inr rfl
  | na => exact Or.inl rfl

theorem coerce_numeric_eq (t : Table) :
    coerce_numeric t =
      overCol (overCol (overCol t "metadata" (List.map toNumericCell))
        "duration" (List.map toNumericCell)) "year" (List.map toNumericCell) :=
  rfl

theorem coerce_numeric_cols (t : Table) :
    (coerce_numeric t).cols = t.cols := by
  rw [coerce_numeric_eq, overCol_cols, overCol_cols, overCol_cols]

theorem coerce_numeric_wf {t : Table} (hwf : t.Wf) : (coerce_numeric t).Wf := by
  rw [coerce_numeric_eq]
  exact overCol_wf (overCol_wf (overCol_wf hwf))

theorem coerce_numeric_getCol {t : Table} (hwf : t.Wf) {c : String}
    (hc : c = "metadata" ∨ c = "duration" ∨ c = "year") :
    getCol? (coerce_numeric t) c =
      (getCol? t c).map (List.map toNumericCell) := by
  have hlf : ∀ col : List Cell, (List.map toNumericCell col).length = col.length :=
    fun col => List.length_map ..
  rw [coerce_numeric_eq]
  rcases hc with h | h | h <;> subst h
  · rw [getCol?_overCol_other hlf (by decide),
      getCol?_overCol_other hlf (by decide), getCol?_overCol_same hwf hlf]
  · rw [getCol?_overCol_other hlf (by decide),
      getCol?_overCol_same (overCol_wf hwf) hlf,
      getCol?_overCol_other hlf (by decide)]
  · rw [getCol?_overCol_same (overCol_wf (overCol_wf hwf)) hlf,
      getCol?_overCol_other hlf (by decide),
      getCol?_overCol_other hlf (by decide)]

theorem imputeIntStep_ok {u : Table} {c : String} (hwf : u.Wf)
    (hcol : ∀ col, getCol? u c = some col →
      (∃ x ∈ col, (numOf x).isSome) ∧
        ∀ x ∈ col, x = Cell.na ∨ (numOf x).isSome) :
    ∃ u', imputeIntStep u c = Except.ok u' ∧ u'.cols = u.cols ∧ u'.Wf ∧
      u'.rows.length = u.rows.length ∧
      (∀ col', getCol? u' c = some col' →
        ∀ x ∈ col', ∃ n : Int, x = Cell.num (n : Rat)) ∧
      (∀ c', c' ≠ c → getCol? u' c' = getCol? u c') := by
  cases hg : getCol? u c with
  | none =>
      have hres : imputeIntStep u c = Except.ok u := by
        unfold imputeIntStep
        rw [hg]
      refine ⟨u, hres, rfl, hwf, rfl, ?_, fun _ _ => rfl⟩
      intro col' hcol'
      rw [hg] at hcol'
      cases hcol'
  | some col =>
      obtain ⟨hex, hnum⟩ := hcol col hg
      obtain ⟨q, hq⟩ := medianOfCol_isSome hex
      obtain ⟨col', hcast, hlen', hint⟩ :=
        castIntCol_ok (fillNa_some_all_num (q := q) hnum)
      have hres : imputeIntStep u c = Except.ok (setCol u c col') := by
        unfold imputeIntStep
        rw [hg]
        show (match castIntCol (fillNa col (medianOfCol col)) with
          | Except.ok col' => Except.ok (setCol u c col')
          | Except.error e => Except.error e) = Except.ok (setCol u c col')
        rw [hq, hcast]
      have hgi : (colIndex u.cols c).isSome := by
        rw [colIndex_isSome_iff, ← getCol?_isSome_iff]
        rw [hg]
        rfl
      obtain ⟨i, hi⟩ := Option.isSome_iff_exists.mp hgi
      have hlenv : col'.length = u.rows.length := by
        rw [hlen', fillNa_length, getCol?_length hg]
      refine ⟨setCol u c col', hres, setCol_cols hi, setCol_wf hwf hi,
        setCol_rows_length hi hlenv, ?_, ?_⟩
      · intro col'' hcol''
        rw [getCol?_setCol_same hwf hi hlenv] at hcol''
        cases hcol''
        exact hint
      · intro c' hne
        exact getCol?_setCol_other hi hlenv hne

theorem metaImpute_wf {t : Table} (hwf : t.Wf) : (metaImpute t).Wf := by
  unfold metaImpute
  exact overCol_wf hwf

theorem metaImpute_cols (t : Table) : (metaImpute t).cols = t.cols := by
  unfold metaImpute
  exact overCol_cols ..

theorem getCol?_metaImpute_same {t : Table} (hwf : t.Wf) :
    getCol? (metaImpute t) "metadata" =
      (getCol? t "metadata").map fun col => fillNa col (medianOfCol col) := by
  unfold metaImpute
  exact getCol?_overCol_same hwf fun col => fillNa_length ..

theorem getCol?_metaImpute_other {t : Table} {c' : String}
    (hne : c' ≠ "metadata") :
    getCol? (metaImpute t) c' = getCol? t c' := by
  unfold metaImpute
  exact getCol?_overCol_other (fun col => fillNa_length ..) hne

/-- C4 counterexample: the claim asserts that after coercion and imputation
a table that originally has a `metadata` column has no missing values in
it; on a table whose only `metadata` entry is the unparseable string "abc"
the value coerces to missing, the median of the empty set of observed
values is itself missing, `fillna` is a no-op, and the missing value
survives the pipeline. -/
theorem claim_c4_counterexample :
    coerceImpute ⟨["metadata"], [[Cell.str "abc"]]⟩ =
        Except.ok ⟨["metadata"], [[Cell.na]]⟩ ∧
      getCol? (⟨["metadata"], [[Cell.na]]⟩ : Table) "metadata" =
        some [Cell.na] := by decide

/-- C4 (amended): for every well-formed table, when each of the columns
`metadata`, `duration`, `year` that is present coerces to at least one
non-missing numeric value, the impute-and-cast pipeline succeeds, those
columns afterwards contain no missing values (the missing ones having been
filled with the column median), and `duration` and `year` are
integer-valued. -/
theorem claim_c4_imputation (t : Table) (hwf : t.Wf)
    (hm : ∀ col, getCol? (coerce_numeric t) "metadata" = some col →
      ∃ x ∈ col, (numOf x).isSome)
    (hd : ∀ col, getCol? (coerce_numeric t) "duration" = some col →
      ∃ x ∈ col, (numOf x).isSome)
    (hy : ∀ col, getCol? (coerce_numeric t) "year" = some col →
      ∃ x ∈ col, (numOf x).isSome) :
    ∃ t', coerceImpute t = Except.ok t' ∧ t'.cols = t.cols ∧
      (∀ c, (c = "metadata" ∨ c = "duration" ∨ c = "year") → c ∈ t.cols →
        ∃ col, getCol? t' c = some col ∧ Cell.na ∉ col) ∧
      (∀ c, (c = "duration" ∨ c = "year") → ∀ col,
        getCol? t' c = some col → ∀ x ∈ col, ∃ n : Int, x = Cell.num (n : Rat)) := by
  have hwf1 : (coerce_numeric t).Wf := coerce_numeric_wf hwf
  have hcols1 := coerce_numeric_cols t
  have hshape : ∀ c, (c = "metadata" ∨ c = "duration" ∨ c = "year") →
      ∀ col, getCol? (coerce_numeric t) c = some col →
      ∀ x ∈ col, x = Cell.na ∨ (numOf x).isSome := by
    intro c hc3 col hcol x hx
    rw [coerce_numeric_getCol hwf hc3] at hcol
    rcases Option.map_eq_some'.mp hcol with ⟨col0, _, he⟩
    rw [← he] at hx
    rcases List.mem_map.mp hx with ⟨y, _, hey⟩
    rw [← hey]
    exact toNumericCell_shape y
  have hwf2 : (metaImpute (coerce_numeric t)).Wf := metaImpute_wf hwf1
  have hcols2 : (metaImpute (coerce_numeric t)).cols = t.cols := by
    rw [metaImpute_cols, hcols1]
  have hmeta2 : ∀ col, getCol? (metaImpute (coerce_numeric t)) "metadata" =
      some col → Cell.na ∉ col := by
    intro col hcol
    rw [getCol?_metaImpute_same hwf1] at hcol
    rcases Option.map_eq_some'.mp hcol with ⟨col1, hcol1, he⟩
    obtain ⟨q, hq⟩ := medianOfCol_isSome (hm col1 hcol1)
    rw [← he, hq]
    exact fillNa_some_no_na
  obtain ⟨t3, hstep3, hcols3, hwf3, _, hint3, hother3⟩ :=
    imputeIntStep_ok (u := metaImpute (coerce_numeric t)) (c := "duration")
      hwf2 (by
        intro col hcol
        rw [getCol?_metaImpute_other (by decide)] at hcol
        exact ⟨hd col hcol, hshape _ (Or.inr (Or.inl rfl)) col hcol⟩)
  obtain ⟨t4, hstep4, hcols4, hwf4, _, hint4, hother4⟩ :=
    imputeIntStep_ok (u := t3) (c := "year") hwf3 (by
      intro col hcol
      rw [hother3 _ (by decide), getCol?_metaImpute_other (by decide)] at hcol
      exact ⟨hy col hcol, hshape _ (Or.inr (Or.inr rfl)) col hcol⟩)
  have hrun : coerceImpute t = Except.ok t4 := by
    unfold coerceImpute impute_and_cast
    rw [hstep3]
    exact hstep4
  refine ⟨t4, hrun, by rw [hcols4, hcols3, hcols2], ?_, ?_⟩
  · intro c hc3 hmem
    have hpres : (getCol? t4 c).isSome := by
      apply getCol?_isSome_iff.mpr
      rw [hcols4, hcols3, hcols2]
      exact hmem
    obtain ⟨col, hcol⟩ := Option.isSome_iff_exists.mp hpres
    refine ⟨col, hcol, ?_⟩
    rcases hc3 with h | h | h <;> subst h
    · have heq : getCol? t4 "metadata" =
          getCol? (metaImpute (coerce_numeric t)) "metadata" := by
        rw [hother4 _ (by decide), hother3 _ (by decide)]
      rw [heq] at hcol
      exact hmeta2 col hcol
    · rw [hother4 _ (by decide)] at hcol
      exact no_na_of_all_int (hint3 col hcol)
    · exact no_na_of_all_int (hint4 col hcol)
  · intro c hc2 col hcol
    rcases hc2 with h | h <;> subst h
    · rw [hother4 _ (by decide)] at hcol
      exact hint3 col hcol
    · exact hint4 col hcol

/-- Witness for C4 (amended) at a concrete table with a parseable year,
an unparseable year, a missing year, and metadata values. -/
theorem claim_c4_witness :
    ∃ t', coerceImpute (⟨["year", "metadata"],
        [[Cell.str "2000", Cell.num 3], [Cell.na, Cell.na],
         [Cell.str "x2", Cell.num 8]]⟩ : Table) = Except.ok t' ∧
      t'.cols = ["year", "metadata"] ∧
      (∀ c, (c = "metadata" ∨ c = "duration" ∨ c = "year") →
        c ∈ (["year", "metadata"] : List String) →
        ∃ col, getCol? t' c = some col ∧ Cell.na ∉ col) ∧
      (∀ c, (c = "duration" ∨ c = "year") → ∀ col,
        getCol? t' c = some col → ∀ x ∈ col, ∃ n : Int, x = Cell.num (n : Rat)) :=
  claim_c4_imputation _ (by decide)
    (fun col h => by
      rw [show getCol? (coerce_numeric (⟨["year", "metadata"],
        [[Cell.str "2000", Cell.num 3], [Cell.na, Cell.na],
         [Cell.str "x2", Cell.num 8]]⟩ : Table)) "metadata" =
        some [Cell.num 3, Cell.na, Cell.num 8] from by decide] at h
      cases h
      decide)
    (fun col h => by
      rw [show getCol? (coerce_numeric (⟨["year", "metadata"],
        [[Cell.str "2000", Cell.num 3], [Cell.na, Cell.na],
         [Cell.str "x2", Cell.num 8]]⟩ : Table)) "duration" =
        none from by decide] at h
      cases h)
    (fun col h => by
      rw [show getCol? (coerce_numeric (⟨["year", "metadata"],
        [[Cell.str "2000", Cell.num 3], [Cell.na, Cell.na],
         [Cell.str "x2", Cell.num 8]]⟩ : Table)) "year" =
        some [Cell.num 2000, Cell.na, Cell.na] from by decide] at h
      cases h
      decide)

/-! ## Lemmas about the filter engine -/

theorem filter_if_step {α : Type} (c : Prop) [Decidable c] (p : α → Bool)
    (l : List α) :
    (if c then l.filter p else l) = l.filter fun a => if c then p a else true := by
  by_cases h : c
  · rw [if_pos h]
    exact List.filter_congr fun a _ => by rw [if_pos h]
  · rw [if_neg h]
    calc l = l.filter fun _ => true := (List.filter_true ..).symm
      _ = _ := List.filter_congr fun a _ => by rw [if_neg h]

theorem filter_if_chain {α : Type} (c : Prop) [Decidable c] (p q : α → Bool)
    (l : List α) :
    (if c then (l.filter q).filter p else l.filter q) =
      l.filter fun a => q a && (if c then p a else true) := by
  by_cases h : c
  · rw [if_pos h, List.filter_filter]
    exact List.filter_congr fun a _ => by
      rw [if_pos h]
      cases p a <;> cases q a <;> rfl
  · rw [if_neg h]
    exact List.filter_congr fun a _ => by rw [if_neg h, Bool.and_true]

theorem yearRows_eq (cfg : FilterCfg) (d : Table) :
    yearRows cfg d = d.rows.filter fun r =>
      if "year" ∈ d.cols then
        cellBetween cfg.yearLo cfg.yearHi (getColCell d.cols "year" r)
      else true := by
  unfold yearRows
  exact filter_if_step ..

theorem metaRows_eq (cfg : FilterCfg) (d : Table) :
    metaRows cfg d = d.rows.filter fun r =>
      (if "year" ∈ d.cols then
        cellBetween cfg.yearLo cfg.yearHi (getColCell d.cols "year" r)
      else true) &&
      (if "metadata" ∈ d.cols then
        cellBetween cfg.metaLo cfg.metaHi (getColCell d.cols "metadata" r)
      else true) := by
  unfold metaRows
  rw [yearRows_eq]
  exact filter_if_chain ..

theorem genreRows_ok {cfg : FilterCfg} {dfClean dfGenre : Table}
    (hg : cfg.genres ≠ [] → "title" ∈ dfClean.cols → "genre" ∈ dfGenre.cols →
      "title" ∈ dfGenre.cols) :
    genreRows cfg dfClean dfGenre =
      Except.ok ((metaRows cfg dfClean).filter fun r =>
        if cfg.genres ≠ [] ∧ "title" ∈ dfClean.cols ∧ "genre" ∈ dfGenre.cols then
          cellInCells (titlesWith dfGenre "genre" cfg.genres "title")
            (getColCell dfClean.cols "title" r)
        else true) := by
  unfold genreRows
  by_cases h : cfg.genres ≠ [] ∧ "title" ∈ dfClean.cols ∧ "genre" ∈ dfGenre.cols
  · rw [if_pos h, if_pos (hg h.1 h.2.1 h.2.2)]
    congr 1
    exact List.filter_congr fun a _ => by rw [if_pos h]
  · rw [if_neg h]
    congr 1
    calc metaRows cfg dfClean
        = (metaRows cfg dfClean).filter fun _ => true := (List.filter_true ..).symm
      _ = _ := List.filter_congr fun a _ => by rw [if_neg h]

theorem castStep_ok {cfg : FilterCfg} {dfClean dfCast : Table}
    {r3 : List (List Cell)}
    (hc : cfg.castSel ≠ [] → "title" ∈ dfClean.cols → "cast" ∈ dfCast.cols →
      "title" ∈ dfCast.cols) :
    castStep cfg dfClean dfCast r3 =
      Except.ok ⟨dfClean.cols, r3.filter fun r =>
        if cfg.castSel ≠ [] ∧ "title" ∈ dfClean.cols ∧ "cast" ∈ dfCast.cols then
          cellInCells (titlesWith dfCast "cast" cfg.castSel "title")
            (getColCell dfClean.cols "title" r)
        else true⟩ := by
  unfold castStep
  by_cases h : cfg.castSel ≠ [] ∧ "title" ∈ dfClean.cols ∧ "cast" ∈ dfCast.cols
  · rw [if_pos h, if_pos (hc h.1 h.2.1 h.2.2)]
    congr 2
    exact List.filter_congr fun a _ => by rw [if_pos h]
  · rw [if_neg h]
    congr 2
    calc r3 = r3.filter fun _ => true := (List.filter_true ..).symm
      _ = _ := List.filter_congr fun a _ => by rw [if_neg h]

theorem bool_rearrange (b1 b2 b3 b4 : Bool) :
    ((b4 && b3) && (b1 && b2)) = (((b1 && b2) && b3) && b4) := by
  cases b1 <;> cases b2 <;> cases b3 <;> cases b4 <;> rfl

/-- Full characterization of the filter pipeline when the two exploded
tables carry the title key whenever their step is active. -/
theorem filterMovies_ok {cfg : FilterCfg} {dfClean dfGenre dfCast : Table}
    (hg : cfg.genres ≠ [] → "title" ∈ dfClean.cols → "genre" ∈ dfGenre.cols →
      "title" ∈ dfGenre.cols)
    (hc : cfg.castSel ≠ [] → "title" ∈ dfClean.cols → "cast" ∈ dfCast.cols →
      "title" ∈ dfCast.cols) :
    filterMovies cfg dfClean dfGenre dfCast =
      Except.ok ⟨dfClean.cols,
        dfClean.rows.filter (specKeep cfg dfClean dfGenre dfCast)⟩ := by
  have h1 : filterMovies cfg dfClean dfGenre dfCast =
      castStep cfg dfClean dfCast ((metaRows cfg dfClean).filter fun r =>
        if cfg.genres ≠ [] ∧ "title" ∈ dfClean.cols ∧ "genre" ∈ dfGenre.cols then
          cellInCells (titlesWith dfGenre "genre" cfg.genres "title")
            (getColCell dfClean.cols "title" r)
        else true) := by
    unfold filterMovies
    rw [genreRows_ok hg]
  rw [h1, castStep_ok hc, metaRows_eq, List.filter_filter, List.filter_filter]
  congr 2
  refine List.filter_congr fun a _ => ?_
  unfold specKeep
  exact bool_rearrange ..

theorem yearRows_sublist (cfg : FilterCfg) (d : Table) :
    (yearRows cfg d).Sublist d.rows := by
  unfold yearRows
  split_ifs
  · exact List.filter_sublist _
  · exact List.Sublist.refl _

theorem metaRows_sublist (cfg : FilterCfg) (d : Table) :
    (metaRows cfg d).Sublist d.rows := by
  unfold metaRows
  split_ifs
  · exact (List.filter_sublist _).trans (yearRows_sublist cfg d)
  · exact yearRows_sublist cfg d

theorem genreRows_sublist {cfg : FilterCfg} {dfClean dfGenre : Table}
    {r3 : List (List Cell)} (h : genreRows cfg dfClean dfGenre = Except.ok r3) :
    r3.Sublist dfClean.rows := by
  unfold genreRows at h
  split_ifs at h <;> cases h
  · exact (List.filter_sublist _).trans (metaRows_sublist cfg dfClean)
  · exact metaRows_sublist cfg dfClean

/-- Getting a `KeyError` back implies every success fact is vacuous; from a
successful run we can read off that the exploded tables had the title key
whenever their step was active. -/
theorem filterMovies_ok_inv {cfg : FilterCfg} {dfClean dfGenre dfCast : Table}
    {t : Table} (h : filterMovies cfg dfClean dfGenre dfCast = Except.ok t) :
    t = ⟨dfClean.cols,
      dfClean.rows.filter (specKeep cfg dfClean dfGenre dfCast)⟩ := by
  have hg : cfg.genres ≠ [] → "title" ∈ dfClean.cols →
      "genre" ∈ dfGenre.cols → "title" ∈ dfGenre.cols := by
    intro h1 h2 h3
    by_contra hT
    have hgr : genreRows cfg dfClean dfGenre = Except.error "KeyError: title" := by
      unfold genreRows
      rw [if_pos ⟨h1, h2, h3⟩, if_neg hT]
    unfold filterMovies at h
    rw [hgr] at h
    cases h
  have hgr := genreRows_ok hg
  have hcast : castStep cfg dfClean dfCast ((metaRows cfg dfClean).filter fun r =>
      if cfg.genres ≠ [] ∧ "title" ∈ dfClean.cols ∧ "genre" ∈ dfGenre.cols then
        cellInCells (titlesWith dfGenre "genre" cfg.genres "title")
          (getColCell dfClean.cols "title" r)
      else true) = Except.ok t := by
    unfold filterMovies at h
    rw [hgr] at h
    exact h
  have hc : cfg.castSel ≠ [] → "title" ∈ dfClean.cols →
      "cast" ∈ dfCast.cols → "title" ∈ dfCast.cols := by
    intro h1 h2 h3
    by_contra hT
    unfold castStep at hcast
    rw [if_pos ⟨h1, h2, h3⟩, if_neg hT] at hcast
    cases hcast
  have h2 := @filterMovies_ok cfg dfClean dfGenre dfCast hg hc
  rw [h2] at h
  cases h
  rfl

/-- C1 counterexample: with a non-empty genre selection, a movie table with
a title column and a GenreMembership table that has a `genre` column but no
title column, the filter raises a `KeyError` instead of degrading the genre
step to a no-op. -/
theorem claim_c1_counterexample :
    filterMovies ⟨1900, 2100, 0, 100, ["Drama"], []⟩
      (⟨["title"], [[Cell.str "A"]]⟩ : Table)
      (⟨["genre"], [[Cell.str "Drama"]]⟩ : Table) (⟨[], []⟩ : Table) =
      Except.error "KeyError: title" := by decide

/-- C1 (amended): whenever the exploded tables carry the title key at every
step that is active (non-empty selection, movie-table title key, and genre
resp. cast column present — without which the code raises instead of
degrading), the filtered table contains exactly the movie rows satisfying
all applicable predicates conjunctively, a missing optional column making
the corresponding predicate a no-op. -/
theorem claim_c1_filter_conjunction (cfg : FilterCfg)
    (dfClean dfGenre dfCast : Table)
    (hg : cfg.genres ≠ [] → "title" ∈ dfClean.cols → "genre" ∈ dfGenre.cols →
      "title" ∈ dfGenre.cols)
    (hc : cfg.castSel ≠ [] → "title" ∈ dfClean.cols → "cast" ∈ dfCast.cols →
      "title" ∈ dfCast.cols) :
    filterMovies cfg dfClean dfGenre dfCast =
      Except.ok ⟨dfClean.cols,
        dfClean.rows.filter (specKeep cfg dfClean dfGenre dfCast)⟩ :=
  filterMovies_ok hg hc

/-- Witness for C1 (amended) at concrete tables and a concrete selection. -/
theorem claim_c1_witness :
    filterMovies ⟨1990, 2010, 0, 100, ["Drama"], []⟩
      (⟨["title", "year"],
        [[Cell.str "A", Cell.num 2000], [Cell.str "B", Cell.num 1980]]⟩ : Table)
      (⟨["title", "genre"], [[Cell.str "A", Cell.str "Drama"]]⟩ : Table)
      (⟨["title", "cast"], []⟩ : Table) =
      Except.ok ⟨(⟨["title", "year"],
        [[Cell.str "A", Cell.num 2000], [Cell.str "B", Cell.num 1980]]⟩ :
          Table).cols,
        (⟨["title", "year"],
        [[Cell.str "A", Cell.num 2000], [Cell.str "B", Cell.num 1980]]⟩ :
          Table).rows.filter
          (specKeep ⟨1990, 2010, 0, 100, ["Drama"], []⟩
            (⟨["title", "year"],
              [[Cell.str "A", Cell.num 2000], [Cell.str "B", Cell.num 1980]]⟩ :
                Table)
            (⟨["title", "genre"], [[Cell.str "A", Cell.str "Drama"]]⟩ : Table)
            (⟨["title", "cast"], []⟩ : Table))⟩ :=
  claim_c1_filter_conjunction _ _ _ _ (fun _ _ _ => by decide)
    (fun _ _ _ => by decide)

/-- C10: whenever filtering succeeds, the filtered table keeps the base
table's columns and its rows form a sublist of the base rows: every result
row is a base row with unchanged values, relative order is preserved, and
no row occurs more often than in the base table. -/
theorem claim_c10_filtered_subset {cfg : FilterCfg}
    {dfClean dfGenre dfCast t : Table}
    (h : filterMovies cfg dfClean dfGenre dfCast = Except.ok t) :
    t.cols = dfClean.cols ∧ t.rows.Sublist dfClean.rows := by
  unfold filterMovies at h
  cases hgr : genreRows cfg dfClean dfGenre with
  | error e =>
      rw [hgr] at h
      cases h
  | ok r3 =>
      rw [hgr] at h
      have h' : castStep cfg dfClean dfCast r3 = Except.ok t := h
      unfold castStep at h'
      split_ifs at h' <;> cases h'
      · exact ⟨rfl, (List.filter_sublist _).trans (genreRows_sublist hgr)⟩
      · exact ⟨rfl, genreRows_sublist hgr⟩

/-- Witness for C10 at a concrete filter run. -/
theorem claim_c10_witness :
    (⟨["title", "year"], [[Cell.str "A", Cell.num 2000]]⟩ : Table).cols =
        (⟨["title", "year"],
          [[Cell.str "A", Cell.num 2000], [Cell.str "B", Cell.num 1990]]⟩ :
            Table).cols ∧
      (⟨["title", "year"], [[Cell.str "A", Cell.num 2000]]⟩ : Table).rows.Sublist
        (⟨["title", "year"],
          [[Cell.str "A", Cell.num 2000], [Cell.str "B", Cell.num 1990]]⟩ :
            Table).rows :=
  @claim_c10_filtered_subset ⟨1995, 2100, 0, 100, [], []⟩
    ⟨["title", "year"],
      [[Cell.str "A", Cell.num 2000], [Cell.str "B", Cell.num 1990]]⟩
    ⟨[], []⟩ ⟨[], []⟩
    ⟨["title", "year"], [[Cell.str "A", Cell.num 2000]]⟩ (by decide)

/-! ## Monotonicity of the filter -/

theorem cellBetween_mono {lo hi lo' hi' : Int} (h1 : lo' ≤ lo) (h2 : hi ≤ hi')
    {x : Cell} (h : cellBetween lo hi x = true) :
    cellBetween lo' hi' x = true := by
  cases x with
  | num q =>
      simp only [cellBetween, decide_eq_true_eq] at h ⊢
      exact ⟨(Int.cast_le.mpr h1).trans h.1, h.2.trans (Int.cast_le.mpr h2)⟩
  | str s => simp [cellBetween] at h
  | na => simp [cellBetween] at h

theorem cellInStrings_mono {vals vals' : List String} (hsub : vals ⊆ vals')
    {x : Cell} (h : cellInStrings vals x = true) :
    cellInStrings vals' x = true := by
  cases x with
  | str s =>
      simp only [cellInStrings, decide_eq_true_eq] at h ⊢
      exact hsub h
  | num q => simp [cellInStrings] at h
  | na => simp [cellInStrings] at h

theorem titlesWith_mono {t : Table} {vc tc : String} {vals vals' : List String}
    (hsub : vals ⊆ vals') :
    titlesWith t vc vals tc ⊆ titlesWith t vc vals' tc := by
  intro x hx
  unfold titlesWith at hx ⊢
  rcases List.mem_map.mp hx with ⟨r, hr, he⟩
  refine List.mem_map.mpr ⟨r, ?_, he⟩
  rw [List.mem_filter] at hr ⊢
  exact ⟨hr.1, cellInStrings_mono hsub hr.2⟩

theorem cellInCells_mono {cs cs' : List Cell} (hsub : cs ⊆ cs') {x : Cell}
    (h : cellInCells cs x = true) : cellInCells cs' x = true := by
  unfold cellInCells at h ⊢
  rw [decide_eq_true_eq] at h ⊢
  exact hsub h

theorem specKeep_mono {w n : FilterCfg} {a g c : Table}
    (hy1 : w.yearLo ≤ n.yearLo) (hy2 : n.yearHi ≤ w.yearHi)
    (hm1 : w.metaLo ≤ n.metaLo) (hm2 : n.metaHi ≤ w.metaHi)
    (hgs : n.genres ⊆ w.genres) (hge : n.genres = [] → w.genres = [])
    (hcs : n.castSel ⊆ w.castSel) (hce : n.castSel = [] → w.castSel = [])
    (r : List Cell) (h : specKeep n a g c r = true) :
    specKeep w a g c r = true := by
  have hgiff : (n.genres ≠ []) ↔ (w.genres ≠ []) := by
    constructor
    · intro hn hw
      exact hn (List.subset_nil.mp (hw ▸ hgs))
    · intro hw hn
      exact hw (hge hn)
  have hciff : (n.castSel ≠ []) ↔ (w.castSel ≠ []) := by
    constructor
    · intro hn hw
      exact hn (List.subset_nil.mp (hw ▸ hcs))
    · intro hw hn
      exact hw (hce hn)
  unfold specKeep at h ⊢
  rw [Bool.and_eq_true, Bool.and_eq_true, Bool.and_eq_true] at h
  obtain ⟨⟨⟨h1, h2⟩, h3⟩, h4⟩ := h
  rw [Bool.and_eq_true, Bool.and_eq_true, Bool.and_eq_true]
  refine ⟨⟨⟨?_, ?_⟩, ?_⟩, ?_⟩
  · split_ifs at h1 ⊢
    · exact cellBetween_mono hy1 hy2 h1
    · rfl
  · split_ifs at h2 ⊢
    · exact cellBetween_mono hm1 hm2 h2
    · rfl
  · by_cases hcg : n.genres ≠ [] ∧ "title" ∈ a.cols ∧ "genre" ∈ g.cols
    · rw [if_pos hcg] at h3
      rw [if_pos ⟨hgiff.mp hcg.1, hcg.2⟩]
      exact cellInCells_mono (titlesWith_mono hgs) h3
    · rw [if_neg fun hw => hcg ⟨hgiff.mpr hw.1, hw.2⟩]
  · by_cases hcc : n.castSel ≠ [] ∧ "title" ∈ a.cols ∧ "cast" ∈ c.cols
    · rw [if_pos hcc] at h4
      rw [if_pos ⟨hciff.mp hcc.1, hcc.2⟩]
      exact cellInCells_mono (titlesWith_mono hcs) h4
    · rw [if_neg fun hw => hcc ⟨hciff.mpr hw.1, hw.2⟩]

/-- C7 counterexample: its two configurations differ only in the genre set;
`["Drama"]` is a superset of `[]`, yet the `["Drama"]` run keeps 0 of 1 rows
while the `[]` run keeps 1, because an empty selection means "unrestricted"
rather than "match nothing". -/
theorem claim_c7_counterexample :
    ([] : List String) ⊆ ["Drama"] ∧
      filterMovies ⟨0, 3000, 0, 100, ["Drama"], []⟩
        (⟨["title"], [[Cell.str "A"]]⟩ : Table)
        (⟨["title", "genre"], []⟩ : Table) (⟨[], []⟩ : Table) =
        Except.ok ⟨["title"], []⟩ ∧
      filterMovies ⟨0, 3000, 0, 100, [], []⟩
        (⟨["title"], [[Cell.str "A"]]⟩ : Table)
        (⟨["title", "genre"], []⟩ : Table) (⟨[], []⟩ : Table) =
        Except.ok ⟨["title"], [[Cell.str "A"]]⟩ := by decide

/-- C7 (amended): filtering is monotone in each single filter dimension,
where "wider" means a containing range for the year and metadata sliders
and, for the genre and cast selections, a superset that is only empty when
the narrower one is (the empty selection means unrestricted). -/
theorem claim_c7_monotone (w n : FilterCfg) (a g c tw tn : Table)
    (hdiff :
      (w.yearLo ≤ n.yearLo ∧ n.yearHi ≤ w.yearHi ∧ w.metaLo = n.metaLo ∧
        w.metaHi = n.metaHi ∧ w.genres = n.genres ∧ w.castSel = n.castSel) ∨
      (w.yearLo = n.yearLo ∧ w.yearHi = n.yearHi ∧ w.metaLo ≤ n.metaLo ∧
        n.metaHi ≤ w.metaHi ∧ w.genres = n.genres ∧ w.castSel = n.castSel) ∨
      (w.yearLo = n.yearLo ∧ w.yearHi = n.yearHi ∧ w.metaLo = n.metaLo ∧
        w.metaHi = n.metaHi ∧ n.genres ⊆ w.genres ∧
        (n.genres = [] → w.genres = []) ∧ w.castSel = n.castSel) ∨
      (w.yearLo = n.yearLo ∧ w.yearHi = n.yearHi ∧ w.metaLo = n.metaLo ∧
        w.metaHi = n.metaHi ∧ w.genres = n.genres ∧ n.castSel ⊆ w.castSel ∧
        (n.castSel = [] → w.castSel = [])))
    (hn : filterMovies n a g c = Except.ok tn)
    (hw : filterMovies w a g c = Except.ok tw) :
    tn.rows.length ≤ tw.rows.length := by
  have h8 : w.yearLo ≤ n.yearLo ∧ n.yearHi ≤ w.yearHi ∧ w.metaLo ≤ n.metaLo ∧
      n.metaHi ≤ w.metaHi ∧ n.genres ⊆ w.genres ∧
      (n.genres = [] → w.genres = []) ∧ n.castSel ⊆ w.castSel ∧
      (n.castSel = [] → w.castSel = []) := by
    rcases hdiff with ⟨h1, h2, h3, h4, h5, h6⟩ | ⟨h1, h2, h3, h4, h5, h6⟩ |
      ⟨h1, h2, h3, h4, h5, h6, h7⟩ | ⟨h1, h2, h3, h4, h5, h6, h7⟩
    · exact ⟨h1, h2, le_of_eq h3, le_of_eq h4.symm,
        by rw [h5]; exact List.Subset.refl _, fun he => by rw [h5, he], by rw [h6]; exact List.Subset.refl _, fun he => by rw [h6, he]⟩
    · exact ⟨le_of_eq h1, le_of_eq h2.symm, h3, h4,
        by rw [h5]; exact List.Subset.refl _, fun he => by rw [h5, he], by rw [h6]; exact List.Subset.refl _, fun he => by rw [h6, he]⟩
    · exact ⟨le_of_eq h1, le_of_eq h2.symm, le_of_eq h3, le_of_eq h4.symm,
        h5, h6, by rw [h7]; exact List.Subset.refl _, fun he => by rw [h7, he]⟩
    · exact ⟨le_of_eq h1, le_of_eq h2.symm, le_of_eq h3, le_of_eq h4.symm,
        by rw [h5]; exact List.Subset.refl _, fun he => by rw [h5, he], h6, h7⟩
  rw [filterMovies_ok_inv hn, filterMovies_ok_inv hw]
  exact List.Sublist.length_le (List.monotone_filter_right _
    (fun r hr => specKeep_mono h8.1 h8.2.1 h8.2.2.1 h8.2.2.2.1 h8.2.2.2.2.1
      h8.2.2.2.2.2.1 h8.2.2.2.2.2.2.1 h8.2.2.2.2.2.2.2 r hr))

/-- Witness for C7 (amended): widening the year range on a concrete table. -/
theorem claim_c7_witness :
    (⟨["title", "year"], [[Cell.str "A", Cell.num 2000]]⟩ : Table).rows.length ≤
      (⟨["title", "year"],
        [[Cell.str "A", Cell.num 2000], [Cell.str "B", Cell.num 1990]]⟩ :
          Table).rows.length :=
  claim_c7_monotone ⟨1980, 2100, 0, 100, [], []⟩ ⟨1995, 2100, 0, 100, [], []⟩
    (⟨["title", "year"],
      [[Cell.str "A", Cell.num 2000], [Cell.str "B", Cell.num 1990]]⟩ : Table)
    ⟨[], []⟩ ⟨[], []⟩ _ _
    (Or.inl (by refine ⟨by decide, by decide, rfl, rfl, rfl, rfl⟩))
    (by decide) (by decide)

/-! ## Default ranges -/

theorem foldl_min_le {l : List Rat} : ∀ {h : Rat}, ∀ v ∈ h :: l,
    l.foldl min h ≤ v := by
  induction l with
  | nil =>
      intro h v hv
      rw [List.mem_singleton] at hv
      rw [hv]
      exact le_refl h
  | cons x xs ih =>
      intro h v hv
      rw [List.foldl_cons]
      rcases List.mem_cons.mp hv with h1 | h1
      · rw [h1]
        exact (ih (min h x) (List.mem_cons_self ..)).trans (min_le_left h x)
      rcases List.mem_cons.mp h1 with h2 | h2
      · rw [h2]
        exact (ih (min h x) (List.mem_cons_self ..)).trans (min_le_right h x)
      · exact ih v (List.mem_cons_of_mem _ h2)

theorem foldl_min_mem (l : List Rat) : ∀ h : Rat, l.foldl min h ∈ h :: l := by
  induction l with
  | nil =>
      intro h
      exact List.mem_singleton.mpr rfl
  | cons x xs ih =>
      intro h
      rw [List.foldl_cons]
      rcases List.mem_cons.mp (ih (min h x)) with h1 | h1
      · rcases min_choice h x with hm | hm
        · rw [h1, hm]
          exact List.mem_cons_self ..
        · rw [h1, hm]
          exact List.mem_cons_of_mem _ (List.mem_cons_self ..)
      · exact List.mem_cons_of_mem _ (List.mem_cons_of_mem _ h1)

theorem le_foldl_max {l : List Rat} : ∀ {h : Rat}, ∀ v ∈ h :: l,
    v ≤ l.foldl max h := by
  induction l with
  | nil =>
      intro h v hv
      rw [List.mem_singleton] at hv
      rw [hv]
      exact le_refl h
  | cons x xs ih =>
      intro h v hv
      rw [List.foldl_cons]
      rcases List.mem_cons.mp hv with h1 | h1
      · rw [h1]
        exact (le_max_left h x).trans (ih (max h x) (List.mem_cons_self ..))
      rcases List.mem_cons.mp h1 with h2 | h2
      · rw [h2]
        exact (le_max_right h x).trans (ih (max h x) (List.mem_cons_self ..))
      · exact ih v (List.mem_cons_of_mem _ h2)

theorem foldl_max_mem (l : List Rat) : ∀ h : Rat, l.foldl max h ∈ h :: l := by
  induction l with
  | nil =>
      intro h
      exact List.mem_singleton.mpr rfl
  | cons x xs ih =>
      intro h
      rw [List.foldl_cons]
      rcases List.mem_cons.mp (ih (max h x)) with h1 | h1
      · rcases max_choice h x with hm | hm
        · rw [h1, hm]
          exact List.mem_cons_self ..
        · rw [h1, hm]
          exact List.mem_cons_of_mem _ (List.mem_cons_self ..)
      · exact List.mem_cons_of_mem _ (List.mem_cons_of_mem _ h1)

theorem pyInt_intCast (n : Int) : pyInt ((n : Int) : Rat) = n := by
  unfold pyInt
  rw [Rat.num_intCast, Rat.den_intCast]
  by_cases h : (0 : Int) ≤ n
  · rw [if_pos h]
    simp [Nat.div_one, Int.toNat_of_nonneg h]
  · rw [if_neg h]
    push_neg at h
    rw [Nat.div_one, Int.toNat_of_nonneg (by omega)]
    omega

theorem defaultRange_keeps (t : Table) (cc : String) (hne : t.rows ≠ [])
    (hint : ∀ r ∈ t.rows, ∃ n : Int, getColCell t.cols cc r = Cell.num (n : Rat)) :
    ∃ lo hi : Int,
      (∃ a, listMin (colNums t cc) = some a ∧ pyInt a = lo) ∧
      (∃ b, listMax (colNums t cc) = some b ∧ pyInt b = hi) ∧
      ∀ r ∈ t.rows, cellBetween lo hi (getColCell t.cols cc r) = true := by
  have hmemcol : ∀ r ∈ t.rows, ∃ q, getColCell t.cols cc r = Cell.num q ∧
      q ∈ colNums t cc := by
    intro r hr
    obtain ⟨n, hnn⟩ := hint r hr
    exact ⟨n, hnn, List.mem_filterMap.mpr ⟨r, hr, by rw [hnn]; rfl⟩⟩
  have hints : ∀ q ∈ colNums t cc, ∃ n : Int, q = (n : Rat) := by
    intro q hq
    rcases List.mem_filterMap.mp hq with ⟨r, hr, hnum⟩
    obtain ⟨n, hnn⟩ := hint r hr
    rw [hnn] at hnum
    simp only [numOf, Option.some.injEq] at hnum
    exact ⟨n, hnum.symm⟩
  obtain ⟨r0, hr0⟩ := List.exists_mem_of_ne_nil t.rows hne
  obtain ⟨q0, _, hq0mem⟩ := hmemcol r0 hr0
  cases hcn : colNums t cc with
  | nil =>
      rw [hcn] at hq0mem
      cases hq0mem
  | cons hh tt =>
      have hamem : tt.foldl min hh ∈ colNums t cc := by
        rw [hcn]
        exact foldl_min_mem tt hh
      have hbmem : tt.foldl max hh ∈ colNums t cc := by
        rw [hcn]
        exact foldl_max_mem tt hh
      obtain ⟨nlo, hnlo⟩ := hints _ hamem
      obtain ⟨nhi, hnhi⟩ := hints _ hbmem
      refine ⟨nlo, nhi, ⟨tt.foldl min hh, rfl, by rw [hnlo, pyInt_intCast]⟩,
        ⟨tt.foldl max hh, rfl, by rw [hnhi, pyInt_intCast]⟩, ?_⟩
      intro r hr
      obtain ⟨q, hcell, hqmem⟩ := hmemcol r hr
      have hle1 : tt.foldl min hh ≤ q := by
        rw [hcn] at hqmem
        exact foldl_min_le q hqmem
      have hle2 : q ≤ tt.foldl max hh := by
        rw [hcn] at hqmem
        exact le_foldl_max q hqmem
      rw [hcell]
      simp only [cellBetween, decide_eq_true_eq]
      exact ⟨hnlo ▸ hle1, hnhi ▸ hle2⟩

/-- C3 counterexample: on a movie table whose single metadata value is 7.5,
the default metadata range is `(int(7.5), int(7.5)) = (7, 7)`, and filtering
with the defaults (and empty selections) drops the row — the default range
does not span the observed values, and filtering with the defaults does not
keep every row. -/
theorem claim_c3_counterexample :
    defaultCfg (⟨["title", "metadata"],
        [[Cell.str "A", Cell.num (mkRat 15 2)]]⟩ : Table) =
      some ⟨1900, 2025, 7, 7, [], []⟩ ∧
    filterMovies ⟨1900, 2025, 7, 7, [], []⟩
      (⟨["title", "metadata"], [[Cell.str "A", Cell.num (mkRat 15 2)]]⟩ : Table)
      (⟨[], []⟩ : Table) (⟨[], []⟩ : Table) =
      Except.ok ⟨["title", "metadata"], []⟩ := by decide

/-- C3 (amended): the default ranges are the truncations toward zero of the
observed column minimum and maximum (`int(min)`, `int(max)`), with the fixed
fallbacks 1900-2025 and 0-100 when the column is absent; when the observed
year and metadata values are integers — as they are for year after
imputation — the truncation is exact and filtering with the defaults (and
empty genre/cast selections) keeps every row. -/
theorem claim_c3_default_ranges (t g c : Table)
    (hY : "year" ∈ t.cols → t.rows ≠ [] ∧
      ∀ r ∈ t.rows, ∃ n : Int, getColCell t.cols "year" r = Cell.num (n : Rat))
    (hM : "metadata" ∈ t.cols → t.rows ≠ [] ∧
      ∀ r ∈ t.rows, ∃ n : Int,
        getColCell t.cols "metadata" r = Cell.num (n : Rat)) :
    ∃ yLo yHi mLo mHi : Int,
      defaultCfg t = some ⟨yLo, yHi, mLo, mHi, [], []⟩ ∧
      filterMovies ⟨yLo, yHi, mLo, mHi, [], []⟩ t g c =
        Except.ok ⟨t.cols, t.rows⟩ ∧
      ("year" ∉ t.cols → yLo = 1900 ∧ yHi = 2025) ∧
      ("metadata" ∉ t.cols → mLo = 0 ∧ mHi = 100) := by
  have hYfact : ∃ yLo yHi : Int, yearDefault t = some (yLo, yHi) ∧
      ("year" ∈ t.cols →
        ∀ r ∈ t.rows, cellBetween yLo yHi (getColCell t.cols "year" r) = true) ∧
      ("year" ∉ t.cols → yLo = 1900 ∧ yHi = 2025) := by
    by_cases hy : "year" ∈ t.cols
    · obtain ⟨hne, hint⟩ := hY hy
      obtain ⟨lo, hi, ⟨a, hmin, hpa⟩, ⟨b, hmax, hpb⟩, hkeep⟩ :=
        defaultRange_keeps t "year" hne hint
      refine ⟨lo, hi, ?_, fun _ => hkeep, fun hcon => absurd hy hcon⟩
      unfold yearDefault
      rw [if_pos hy, hmin, hmax]
      show some (pyInt a, pyInt b) = some (lo, hi)
      rw [hpa, hpb]
    · exact ⟨1900, 2025, by unfold yearDefault; rw [if_neg hy],
        fun hcon => absurd hcon hy, fun _ => ⟨rfl, rfl⟩⟩
  have hMfact : ∃ mLo mHi : Int, metaDefault t = some (mLo, mHi) ∧
      ("metadata" ∈ t.cols → ∀ r ∈ t.rows,
        cellBetween mLo mHi (getColCell t.cols "metadata" r) = true) ∧
      ("metadata" ∉ t.cols → mLo = 0 ∧ mHi = 100) := by
    by_cases hm : "metadata" ∈ t.cols
    · obtain ⟨hne, hint⟩ := hM hm
      obtain ⟨lo, hi, ⟨a, hmin, hpa⟩, ⟨b, hmax, hpb⟩, hkeep⟩ :=
        defaultRange_keeps t "metadata" hne hint
      refine ⟨lo, hi, ?_, fun _ => hkeep, fun hcon => absurd hm hcon⟩
      unfold metaDefault
      rw [if_pos hm, hmin, hmax]
      show some (pyInt a, pyInt b) = some (lo, hi)
      rw [hpa, hpb]
    · exact ⟨0, 100, by unfold metaDefault; rw [if_neg hm],
        fun hcon => absurd hcon hm, fun _ => ⟨rfl, rfl⟩⟩
  obtain ⟨yLo, yHi, hyd, hykeep, hyfb⟩ := hYfact
  obtain ⟨mLo, mHi, hmd, hmkeep, hmfb⟩ := hMfact
  refine ⟨yLo, yHi, mLo, mHi, ?_, ?_, hyfb, hmfb⟩
  · unfold defaultCfg
    rw [hyd, hmd]
  · have hyr : yearRows ⟨yLo, yHi, mLo, mHi, [], []⟩ t = t.rows := by
      unfold yearRows
      by_cases hy : "year" ∈ t.cols
      · rw [if_pos hy]
        exact List.filter_eq_self.mpr fun r hr => hykeep hy r hr
      · rw [if_neg hy]
    have hmr : metaRows ⟨yLo, yHi, mLo, mHi, [], []⟩ t = t.rows := by
      unfold metaRows
      rw [hyr]
      by_cases hm : "metadata" ∈ t.cols
      · rw [if_pos hm]
        exact List.filter_eq_self.mpr fun r hr => hmkeep hm r hr
      · rw [if_neg hm]
    have hgr : genreRows ⟨yLo, yHi, mLo, mHi, [], []⟩ t g =
        Except.ok t.rows := by
      unfold genreRows
      rw [if_neg fun hcon => hcon.1 rfl, hmr]
    have hcs : castStep ⟨yLo, yHi, mLo, mHi, [], []⟩ t c t.rows =
        Except.ok ⟨t.cols, t.rows⟩ := by
      unfold castStep
      rw [if_neg fun hcon => hcon.1 rfl]
    unfold filterMovies
    rw [hgr]
    exact hcs

/-- Witness for C3 (amended) at a concrete integer-valued movie table. -/
theorem claim_c3_witness :
    ∃ yLo yHi mLo mHi : Int,
      defaultCfg (⟨["title", "year", "metadata"],
        [[Cell.str "A", Cell.num 2000, Cell.num 55],
         [Cell.str "B", Cell.num 1990, Cell.num 80]]⟩ : Table) =
        some ⟨yLo, yHi, mLo, mHi, [], []⟩ ∧
      filterMovies ⟨yLo, yHi, mLo, mHi, [], []⟩
        (⟨["title", "year", "metadata"],
          [[Cell.str "A", Cell.num 2000, Cell.num 55],
           [Cell.str "B", Cell.num 1990, Cell.num 80]]⟩ : Table)
        (⟨[], []⟩ : Table) (⟨[], []⟩ : Table) =
        Except.ok ⟨(⟨["title", "year", "metadata"],
          [[Cell.str "A", Cell.num 2000, Cell.num 55],
           [Cell.str "B", Cell.num 1990, Cell.num 80]]⟩ : Table).cols,
          (⟨["title", "year", "metadata"],
          [[Cell.str "A", Cell.num 2000, Cell.num 55],
           [Cell.str "B", Cell.num 1990, Cell.num 80]]⟩ : Table).rows⟩ ∧
      ("year" ∉ (⟨["title", "year", "metadata"],
        [[Cell.str "A", Cell.num 2000, Cell.num 55],
         [Cell.str "B", Cell.num 1990, Cell.num 80]]⟩ : Table).cols →
        yLo = 1900 ∧ yHi = 2025) ∧
      ("metadata" ∉ (⟨["title", "year", "metadata"],
        [[Cell.str "A", Cell.num 2000, Cell.num 55],
         [Cell.str "B", Cell.num 1990, Cell.num 80]]⟩ : Table).cols →
        mLo = 0 ∧ mHi = 100) :=
  claim_c3_default_ranges _ _ _
    (fun _ => ⟨by decide, by
      intro r hr
      simp only [List.mem_cons, List.not_mem_nil, or_false] at hr
      rcases hr with h | h <;> rw [h]
      · exact ⟨2000, by decide⟩
      · exact ⟨1990, by decide⟩⟩)
    (fun _ => ⟨by decide, by
      intro r hr
      simp only [List.mem_cons, List.not_mem_nil, or_false] at hr
      rcases hr with h | h <;> rw [h]
      · exact ⟨55, by decide⟩
      · exact ⟨80, by decide⟩⟩)

/-! ## Lemmas about the join resolver -/

theorem colIndex_append_singleton {l : List String} {c : String} (h : c ∉ l) :
    colIndex (l ++ [c]) c = some l.length := by
  induction l with
  | nil => simp [colIndex]
  | cons x xs ih =>
      have hx : x ≠ c := fun he => h (he ▸ List.mem_cons_self ..)
      rw [List.cons_append, colIndex, if_neg hx,
        ih fun hm => h (List.mem_cons_of_mem _ hm)]
      rfl

theorem colIndex_append_left {l₁ l₂ : List String} {c : String} {i : Nat}
    (h : colIndex l₁ c = some i) : colIndex (l₁ ++ l₂) c = some i := by
  induction l₁ generalizing i with
  | nil => simp [colIndex] at h
  | cons x xs ih =>
      rw [colIndex] at h
      rw [List.cons_append, colIndex]
      by_cases hx : x = c
      · rw [if_pos hx] at h ⊢
        exact h
      · rw [if_neg hx] at h ⊢
        rcases Option.map_eq_some'.mp h with ⟨j, hj, he⟩
        rw [ih hj, ← he]
        rfl

theorem colIndex_renameAll_new {l : List String} {old nw : String}
    (hx : nw ∉ l) : colIndex (renameAll old nw l) nw = colIndex l old := by
  induction l with
  | nil => rfl
  | cons c cs ih =>
      have hrn : renameAll old nw (c :: cs) =
          (if c = old then nw else c) :: renameAll old nw cs := rfl
      rw [hrn]
      by_cases hc : c = old
      · rw [if_pos hc, colIndex, if_pos rfl, colIndex, if_pos hc]
      · have hcn : c ≠ nw := fun he => hx (he ▸ List.mem_cons_self ..)
        rw [if_neg hc, colIndex, if_neg hcn, colIndex, if_neg hc,
          ih fun hm => hx (List.mem_cons_of_mem _ hm)]

theorem not_mem_renameAll {l : List String} {old nw a : String}
    (h1 : a ≠ nw) (h2 : a ∉ l) : a ∉ renameAll old nw l := by
  intro hm
  rcases mem_renameAll hm with h | ⟨h, _⟩
  · exact h1 h
  · exact h2 h

theorem year_not_mem_renamed {l : List String} :
    "year" ∉ renameAll "year" "year_x" l := by
  intro hm
  rcases mem_renameAll hm with h | ⟨_, h⟩
  · exact absurd h (by decide)
  · exact h rfl

theorem getColCell_merged_yy {e : Table} {r : List Cell} {y : Cell}
    (hyyE : "year_y" ∉ e.cols) (hwfr : r.length = e.cols.length) :
    getColCell (renameAll "year" "year_x" e.cols ++ ["year_y"]) "year_y"
      (r ++ [y]) = y := by
  unfold getColCell
  rw [colIndex_append_singleton (not_mem_renameAll (by decide) hyyE)]
  show (r ++ [y]).getD (renameAll "year" "year_x" e.cols).length Cell.na = y
  have hlen : (renameAll "year" "year_x" e.cols).length = r.length := by
    unfold renameAll
    rw [List.length_map, hwfr]
  rw [hlen, List.getD_append_right _ _ _ _ (le_refl r.length), Nat.sub_self]
  rfl

theorem getColCell_merged_yx {e : Table} {r : List Cell} {y : Cell} {iy : Nat}
    (hiy : colIndex e.cols "year" = some iy) (hxE : "year_x" ∉ e.cols)
    (hwfr : r.length = e.cols.length) :
    getColCell (renameAll "year" "year_x" e.cols ++ ["year_y"]) "year_x"
      (r ++ [y]) = getColCell e.cols "year" r := by
  unfold getColCell
  have h1 : colIndex (renameAll "year" "year_x" e.cols) "year_x" = some iy := by
    rw [colIndex_renameAll_new hxE]
    exact hiy
  rw [colIndex_append_left h1, hiy]
  exact List.getD_append _ _ _ _ (by rw [hwfr]; exact colIndex_lt hiy)

theorem dropCols_row_merged {e : Table} {r : List Cell} {y c : Cell}
    (hxE : "year_x" ∉ e.cols) (hyyE : "year_y" ∉ e.cols)
    (hwfr : r.length = e.cols.length) :
    ((((renameAll "year" "year_x" e.cols ++ ["year_y"]) ++ ["year"]).zip
      ((r ++ [y]) ++ [c])).filter fun p =>
        decide (p.1 ∉ (["year_x", "year_y"] : List String))).map Prod.snd =
      (((e.cols.zip r).filter fun p => decide (p.1 ≠ "year")).map Prod.snd) ++
        [c] := by
  have hlen1 : (renameAll "year" "year_x" e.cols ++ ["year_y"]).length =
      (r ++ [y]).length := by
    unfold renameAll
    simp [hwfr]
  have hlen2 : (renameAll "year" "year_x" e.cols).length = r.length := by
    unfold renameAll
    rw [List.length_map, hwfr]
  rw [List.zip_append hlen1, List.zip_append hlen2, List.filter_append,
    List.filter_append, List.map_append, List.map_append]
  have hpart2 : (((["year_y"].zip [y]).filter fun p =>
      decide (p.1 ∉ (["year_x", "year_y"] : List String))).map Prod.snd) =
      [] := by
    show (([(("year_y" : String), y)].filter fun p =>
      decide (p.1 ∉ (["year_x", "year_y"] : List String))).map Prod.snd) = []
    rw [List.filter_cons, if_neg (by
      show ¬(decide ((("year_y" : String), y).1 ∉
        (["year_x", "year_y"] : List String)) = true)
      show ¬(decide (("year_y" : String) ∉
        (["year_x", "year_y"] : List String)) = true)
      decide)]
    rfl
  have hpart3 : (((["year"].zip [c]).filter fun p =>
      decide (p.1 ∉ (["year_x", "year_y"] : List String))).map Prod.snd) =
      [c] := by
    show (([(("year" : String), c)].filter fun p =>
      decide (p.1 ∉ (["year_x", "year_y"] : List String))).map Prod.snd) = [c]
    rw [List.filter_cons, if_pos (by
      show decide ((("year" : String), c).1 ∉
        (["year_x", "year_y"] : List String)) = true
      show decide (("year" : String) ∉
        (["year_x", "year_y"] : List String)) = true
      decide)]
    rfl
  have hpart1 : (((renameAll "year" "year_x" e.cols).zip r).filter fun p =>
      decide (p.1 ∉ (["year_x", "year_y"] : List String))).map Prod.snd =
      ((e.cols.zip r).filter fun p => decide (p.1 ≠ "year")).map Prod.snd := by
    unfold renameAll
    rw [List.zip_map_left, List.filter_map, List.map_map]
    have hfc : ((e.cols.zip r).filter
        ((fun p => decide (p.1 ∉ (["year_x", "year_y"] : List String))) ∘
          Prod.map (fun c => if c = "year" then "year_x" else c) id)) =
        (e.cols.zip r).filter fun p => decide (p.1 ≠ "year") := by
      apply List.filter_congr
      intro p hp
      have hpc : p.1 ∈ e.cols := (List.of_mem_zip hp).1
      by_cases hpy : p.1 = "year"
      · show decide ((if p.1 = "year" then "year_x" else p.1) ∉
          (["year_x", "year_y"] : List String)) = decide (p.1 ≠ "year")
        rw [if_pos hpy, hpy]
        decide
      · show decide ((if p.1 = "year" then "year_x" else p.1) ∉
          (["year_x", "year_y"] : List String)) = decide (p.1 ≠ "year")
        rw [if_neg hpy]
        have hne1 : p.1 ≠ "year_x" := fun he => hxE (he ▸ hpc)
        have hne2 : p.1 ≠ "year_y" := fun he => hyyE (he ▸ hpc)
        rw [decide_eq_true (by
          intro hm
          rcases List.mem_cons.mp hm with h | h
          · exact hne1 h
          · exact hne2 (List.mem_singleton.mp h)), decide_eq_true hpy]
    rw [hfc]
    apply List.map_congr_left
    intro p _
    rfl
  rw [hpart1, hpart2, hpart3, List.append_nil]

theorem setCol_none {t : Table} {c : String} {v : List Cell}
    (h : colIndex t.cols c = none) :
    setCol t c v = ⟨t.cols ++ [c], t.rows.zipWith (fun r x => r ++ [x]) v⟩ := by
  unfold setCol
  rw [h]

theorem dropCols_mk (a : List String) (b : List (List Cell))
    (names : List String) :
    dropCols ⟨a, b⟩ names = ⟨a.filter fun c => decide (c ∉ names),
      b.map fun r => ((a.zip r).filter fun p =>
        decide (p.1 ∉ names)).map Prod.snd⟩ := rfl

/-- The composite join of merge followed by the collision fix, computed in
closed form. -/
theorem fixYear_merged (e m : Table) (tc : String) (hwf : e.Wf)
    (hyE : "year" ∈ e.cols) (hxE : "year_x" ∉ e.cols)
    (hyyE : "year_y" ∉ e.cols) :
    fixYear (mergeLeftYear e m tc) =
      ⟨(e.cols.filter fun c => decide (c ≠ "year")) ++ ["year"],
        e.rows.flatMap fun r =>
          if (m.rows.filter fun mr =>
              decide (getColCell m.cols tc mr = getColCell e.cols tc r)).isEmpty
          then
            [(((e.cols.zip r).filter fun p => decide (p.1 ≠ "year")).map
              Prod.snd) ++ [specCoalesce Cell.na (getColCell e.cols "year" r)]]
          else (m.rows.filter fun mr =>
              decide (getColCell m.cols tc mr = getColCell e.cols tc r)).map
            fun mr =>
              (((e.cols.zip r).filter fun p => decide (p.1 ≠ "year")).map
                Prod.snd) ++
                [specCoalesce (getColCell m.cols "year" mr)
                  (getColCell e.cols "year" r)]⟩ := by
  obtain ⟨iy, hiy⟩ := Option.isSome_iff_exists.mp (colIndex_isSome_iff.mpr hyE)
  have hmcols : (mergeLeftYear e m tc).cols =
      renameAll "year" "year_x" e.cols ++ ["year_y"] := by
    show ((if "year" ∈ e.cols then renameAll "year" "year_x" e.cols
      else e.cols) ++ [if "year" ∈ e.cols then "year_y" else "year"]) = _
    rw [if_pos hyE, if_pos hyE]
  have hyx_mem : "year_x" ∈ (mergeLeftYear e m tc).cols := by
    rw [hmcols]
    exact List.mem_append.mpr (Or.inl (renameAll_mem_new hyE))
  have hyy_mem : "year_y" ∈ (mergeLeftYear e m tc).cols := by
    rw [hmcols]
    exact List.mem_append.mpr (Or.inr (List.mem_singleton.mpr rfl))
  have hnoyear : colIndex (mergeLeftYear e m tc).cols "year" = none := by
    rw [hmcols]
    have hnm : "year" ∉ renameAll "year" "year_x" e.cols ++ ["year_y"] := by
      rw [List.mem_append]
      rintro (h | h)
      · exact year_not_mem_renamed h
      · exact absurd (List.mem_singleton.mp h) (by decide)
    exact Option.not_isSome_iff_eq_none.mp
      fun hs => hnm (colIndex_isSome_iff.mp hs)
  have hmrows : (mergeLeftYear e m tc).rows = e.rows.flatMap fun r =>
      if (m.rows.filter fun mr =>
          decide (getColCell m.cols tc mr = getColCell e.cols tc r)).isEmpty
      then [r ++ [Cell.na]]
      else (m.rows.filter fun mr =>
          decide (getColCell m.cols tc mr = getColCell e.cols tc r)).map
        fun mr => r ++ [getColCell m.cols "year" mr] := rfl
  unfold fixYear
  rw [if_pos ⟨hyx_mem, hyy_mem⟩]
  unfold colValsD
  rw [List.zip_map', List.map_map, setCol_none hnoyear, dropCols_mk,
    List.zipWith_map_right, List.zipWith_same, List.map_map, hmcols, hmrows]
  congr 1
  · -- column equality
    rw [List.append_assoc, List.filter_append]
    have hl : (renameAll "year" "year_x" e.cols).filter (fun c =>
        decide (c ∉ (["year_x", "year_y"] : List String))) =
        e.cols.filter fun c => decide (c ≠ "year") := by
      unfold renameAll
      rw [List.filter_map]
      have hfc : e.cols.filter ((fun c =>
          decide (c ∉ (["year_x", "year_y"] : List String))) ∘
            fun c => if c = "year" then "year_x" else c) =
          e.cols.filter fun c => decide (c ≠ "year") := by
        apply List.filter_congr
        intro x hx
        by_cases hxy : x = "year"
        · show decide ((if x = "year" then "year_x" else x) ∉
            (["year_x", "year_y"] : List String)) = decide (x ≠ "year")
          rw [if_pos hxy, hxy]
          decide
        · show decide ((if x = "year" then "year_x" else x) ∉
            (["year_x", "year_y"] : List String)) = decide (x ≠ "year")
          rw [if_neg hxy]
          have hne1 : x ≠ "year_x" := fun he => hxE (he ▸ hx)
          have hne2 : x ≠ "year_y" := fun he => hyyE (he ▸ hx)
          rw [decide_eq_true (by
            intro hm
            rcases List.mem_cons.mp hm with h | h
            · exact hne1 h
            · exact hne2 (List.mem_singleton.mp h)), decide_eq_true hxy]
      rw [hfc]
      apply map_eq_self_of_fixed
      intro x hx
      rw [List.mem_filter] at hx
      have hxy : x ≠ "year" := of_decide_eq_true hx.2
      rw [if_neg hxy]
    rw [hl]
    rfl
  · -- row equality
    rw [List.map_flatMap]
    apply List.flatMap_congr
    intro r hr
    have hwfr : r.length = e.cols.length := hwf r hr
    by_cases hms : (m.rows.filter fun mr =>
        decide (getColCell m.cols tc mr = getColCell e.cols tc r)).isEmpty
    · rw [if_pos hms, if_pos hms, List.map_cons, List.map_nil]
      congr 1
      simp only [Function.comp_apply]
      rw [getColCell_merged_yy hyyE hwfr, getColCell_merged_yx hiy hxE hwfr]
      exact dropCols_row_merged hxE hyyE hwfr
    · rw [if_neg hms, if_neg hms, List.map_map]
      apply List.map_congr_left
      intro mr _
      simp only [Function.comp_apply]
      rw [getColCell_merged_yy hyyE hwfr, getColCell_merged_yx hiy hxE hwfr]
      exact dropCols_row_merged hxE hyyE hwfr

theorem yearJoin_eq_spec (e m : Table) (tc : String) (hwf : e.Wf)
    (hyE : "year" ∈ e.cols) (hxE : "year_x" ∉ e.cols)
    (hyyE : "year_y" ∉ e.cols) :
    yearJoin e m tc = specYearJoin e m tc := by
  unfold yearJoin
  rw [fixYear_merged e m tc hwf hyE hxE hyyE]
  rfl

/-- C2: at the collision sites (exploded table carrying its own `year`
column, movie table projected to title and year and left-joined on title —
the shared merge / coalesce / drop / dropna routine reused by the genre-tab,
cast-tab and yearly-tab trend computations), the result equals the
spec-side join: the movie-table-sourced value is preferred with fallback to
the exploded value, both original candidates are dropped leaving exactly
one `year` column, and rows whose resulting `year` is missing are dropped
before any grouping or pivoting. -/
theorem claim_c2_join_resolver (e m : Table) (tc : String) (hwf : e.Wf)
    (hyE : "year" ∈ e.cols) (_hyM : "year" ∈ m.cols)
    (hxE : "year_x" ∉ e.cols) (hyyE : "year_y" ∉ e.cols) :
    yearJoin e m tc = specYearJoin e m tc ∧
    (yearJoin e m tc).cols.count "year" = 1 ∧
    "year_x" ∉ (yearJoin e m tc).cols ∧
    "year_y" ∉ (yearJoin e m tc).cols ∧
    ∀ r ∈ (yearJoin e m tc).rows,
      getColCell (yearJoin e m tc).cols "year" r ≠ Cell.na := by
  have he := yearJoin_eq_spec e m tc hwf hyE hxE hyyE
  have hcols : (specYearJoin e m tc).cols =
      (e.cols.filter fun c => decide (c ≠ "year")) ++ ["year"] := rfl
  refine ⟨he, ?_, ?_, ?_, ?_⟩
  · rw [he, hcols, List.count_append]
    have h0 : ("year" : String) ∉ e.cols.filter fun c => decide (c ≠ "year") := by
      intro hm
      rw [List.mem_filter] at hm
      exact (of_decide_eq_true hm.2) rfl
    rw [List.count_eq_zero.mpr h0]
    rfl
  · rw [he, hcols]
    intro hm
    rcases List.mem_append.mp hm with h | h
    · rw [List.mem_filter] at h
      exact hxE h.1
    · exact absurd (List.mem_singleton.mp h) (by decide)
  · rw [he, hcols]
    intro hm
    rcases List.mem_append.mp hm with h | h
    · rw [List.mem_filter] at h
      exact hyyE h.1
    · exact absurd (List.mem_singleton.mp h) (by decide)
  · rw [he]
    intro r hr
    have hr' : r ∈ ((specYearJoin e m tc).rows) := hr
    unfold specYearJoin at hr'
    rw [List.mem_filter] at hr'
    exact of_decide_eq_true hr'.2

/-- Witness for C2 at the spec's own join-determinism example, extended
with an exploded-side `year` column to exercise the collision. -/
theorem claim_c2_witness :
    yearJoin
        (⟨["title", "genre", "year"],
          [[Cell.str "A", Cell.str "Drama", Cell.num 1990],
           [Cell.str "B", Cell.str "Comedy", Cell.na],
           [Cell.str "C", Cell.str "Drama", Cell.na]]⟩ : Table)
        (⟨["title", "year"],
          [[Cell.str "A", Cell.num 2000], [Cell.str "B", Cell.num 2001]]⟩ :
            Table) "title" =
      specYearJoin
        (⟨["title", "genre", "year"],
          [[Cell.str "A", Cell.str "Drama", Cell.num 1990],
           [Cell.str "B", Cell.str "Comedy", Cell.na],
           [Cell.str "C", Cell.str "Drama", Cell.na]]⟩ : Table)
        (⟨["title", "year"],
          [[Cell.str "A", Cell.num 2000], [Cell.str "B", Cell.num 2001]]⟩ :
            Table) "title" :=
  (claim_c2_join_resolver _ _ "title" (by decide) (by decide) (by decide)
    (by decide) (by decide)).1

/-! ## Trend-view overwrite and export -/

/-- C9 counterexample: with movie table {A:2000, B:2001}, genre rows
{(A,Drama),(B,Comedy)} and a sidebar filter keeping only A, the pivot input
the genre tab actually computes still counts (2001, Comedy) once — it
reflects the full dataset — while the pivot over the filtered genre rows
(what the claim asserts) gives zero there. -/
theorem claim_c9_counterexample :
    pivotLookup (genreTrendTable
        (⟨["title", "year"], [[Cell.str "A", Cell.num 2000]]⟩ : Table)
        (⟨["title", "genre"],
          [[Cell.str "A", Cell.str "Drama"],
           [Cell.str "B", Cell.str "Comedy"]]⟩ : Table)
        (⟨["title", "year"],
          [[Cell.str "A", Cell.num 2000], [Cell.str "B", Cell.num 2001]]⟩ :
            Table)) "title" (Cell.num 2001) (Cell.str "Comedy") = 1 ∧
      pivotLookup (claimGenreTrendTable
        (⟨["title", "year"], [[Cell.str "A", Cell.num 2000]]⟩ : Table)
        (⟨["title", "genre"],
          [[Cell.str "A", Cell.str "Drama"],
           [Cell.str "B", Cell.str "Comedy"]]⟩ : Table)
        (⟨["title", "year"],
          [[Cell.str "A", Cell.num 2000], [Cell.str "B", Cell.num 2001]]⟩ :
            Table)) "title" (Cell.num 2001) (Cell.str "Comedy") = 0 := by
  decide

/-- C9 (amended): in the genre-analysis tab, the merge of the
sidebar-filtered `dfg_top` is computed first and then overwritten by a
second merge of the full exploded genre table; the pivot input therefore
equals the full-table join and is invariant under the sidebar filter
state. -/
theorem claim_c9_trend_full_dataset (dfF dfF2 dfGenre dfClean : Table)
    (y g : Cell) :
    genreTrendTable dfF dfGenre dfClean = yearJoin dfGenre dfClean "title" ∧
      pivotLookup (genreTrendTable dfF dfGenre dfClean) "title" y g =
        pivotLookup (genreTrendTable dfF2 dfGenre dfClean) "title" y g :=
  ⟨rfl, rfl⟩

/-- C8: the sidebar download (computed right after filtering) and the
data-table-view download (computed after all tab sections ran) are
byte-identical for every state, because no tab computation rebinds or
mutates `df_filtered`; and the exported text is the header line followed by
one line per filtered row, in table order. -/
theorem claim_c8_export_identical (s : AppState) :
    sidebarExport s = dataTableExport s ∧
    (tabsCompute s).state = s ∧
    (toCsv s.df_filtered).length = s.df_filtered.rows.length + 1 ∧
    (toCsv s.df_filtered).getD 0 "" =
      csvLine (s.df_filtered.cols.map csvEscape) ∧
    ∀ i, i < s.df_filtered.rows.length →
      (toCsv s.df_filtered).getD (i + 1) "" =
        csvLine ((s.df_filtered.rows.getD i []).map cellRender) := by
  refine ⟨rfl, rfl, ?_, rfl, ?_⟩
  · show (csvLine _ :: List.map _ _).length = _
    rw [List.length_cons, List.length_map]
  · intro i hi
    show (csvLine _ :: List.map _ _).getD (i + 1) "" = _
    rw [List.getD_cons_succ, List.getD_eq_getElem?_getD, List.getElem?_map,
      List.getElem?_eq_getElem hi]
    show csvLine (List.map cellRender s.df_filtered.rows[i]) = _
    rw [List.getD_eq_getElem]

end ImdbDash
